import Mathlib

/-!
The monotonic-counter repository: Merkle proof verifier and virtual monotonic counter.

A shallow embedding of `merkle/merkle.go` (`VerifyProof`) and of
`counter/counter.go` (the four operations of `VirtualMonotonicCounter`),
followed by the properties proved about them.

Conventions of the embedding:

* a Go `uint64` is a `Nat` below `2 ^ 64`; `index & 1` and `index >>= 1` are
  the `Nat` operations `&&&` and `>>>`, which cannot overflow, and
  `counter.Value++` is addition modulo `2 ^ 64`;
* a `[32]byte` (`merkle.Value`, `common.Hash`) is a list of 32 bytes;
* `sha256` applied to the 64-byte concatenation of two values is a parameter
  `H : Value → Value → Value`, since the verifier only ever uses it that way;
* the Go `error` result of `VerifyProof` is `Except VerifyError Unit`, with one
  constructor per `errors.New` message;
* the Go `map[uint64]*Counter` is a finite map; every `*Counter` is created by
  `CreateNewCounter`, stored under exactly one key and never handed out, so
  the pointer indirection is not observable and the map holds the records;
* the random draw of `generateCounterID` is an input of `CreateNewCounter`.
-/

namespace MonotonicCounter

/-! ## merkle/merkle.go -/

namespace Merkle

/-- One byte. -/
abbrev Byte := Fin 256

/-- Go `type Value [32]byte`; `common.Hash` is the same array type. -/
abbrev Value := { bytes : List Byte // bytes.length = 32 }

/-- The three `errors.New` results of `VerifyProof`. -/
inductive VerifyError where
  /-- Go `errors.New("branch has extra items")`. -/
  | ExtraBranchItems
  /-- Go `errors.New("branch is missing items")`. -/
  | MissingBranchItems
  /-- Go `errors.New("root mismatch")`. -/
  | RootMismatch
  deriving DecidableEq, Repr

/-- The text of each error, as passed to `errors.New`. -/
def VerifyError.message : VerifyError → String
  | .ExtraBranchItems => "branch has extra items"
  | .MissingBranchItems => "branch is missing items"
  | .RootMismatch => "root mismatch"

/-- The body of `for _, sibling := range branch` in `VerifyProof`, as a
recursion over the remaining siblings. It returns the running `index` and
`value` once the branch is consumed, or the error of the early `return`. -/
def verifyLoop (H : Value → Value → Value) :
    Nat → List Value → Value → Except VerifyError (Nat × Value)
  | index, [], value => .ok (index, value)
  | index, sibling :: rest, value =>
    let value1 := if index &&& 1 = 0 then H value sibling else H sibling value
    let index1 := index >>> 1
    if index1 = 0 then .error .ExtraBranchItems
    else verifyLoop H index1 rest value1

/-- Go `func VerifyProof(root common.Hash, index uint64, branch Values, value Value) error`;
`.ok ()` is the `nil` result. -/
def VerifyProof (H : Value → Value → Value) (root : Value) (index : Nat)
    (branch : List Value) (value : Value) : Except VerifyError Unit :=
  match verifyLoop H index branch value with
  | .error e => .error e
  | .ok (index1, value1) =>
    if index1 ≠ 1 then .error .MissingBranchItems
    else if value1 ≠ root then .error .RootMismatch
    else .ok ()

/-! ### Specification-side definitions -/

/-- The running value as the specification words it: fold the branch left to
right from the leaf, at step `k` (counted from `k`) hashing `value || sibling`
when bit `k` of `index` is 0 and `sibling || value` when it is 1. -/
def specFold (H : Value → Value → Value) (index : Nat) :
    Nat → List Value → Value → Value
  | _, [], value => value
  | k, sibling :: rest, value =>
    specFold H index (k + 1) rest
      (if index.testBit k = false then H value sibling else H sibling value)

/-- Modelled from the spec: the perfect binary tree of the round-trip property,
which the repository does not build. `treeNode H d leaves h g` is the value of
the node with generalized index `g` that has `h` levels below it, in the tree
of depth `d` whose leaf `i` (generalized index `2 ^ d + i`) is `leaves i`;
index `2 * g` and `2 * g + 1` are the left and right children of index `g` and
an inner node is `Hash(left || right)`. -/
def treeNode (H : Value → Value → Value) (d : Nat) (leaves : Nat → Value) :
    Nat → Nat → Value
  | 0, g => leaves (g - 2 ^ d)
  | h + 1, g => H (treeNode H d leaves h (2 * g)) (treeNode H d leaves h (2 * g + 1))

/-- Modelled from the spec: the root of the tree of depth `d`, the node with
generalized index 1. -/
def treeRoot (H : Value → Value → Value) (d : Nat) (leaves : Nat → Value) : Value :=
  treeNode H d leaves d 1

/-- Modelled from the spec: the generalized index of the sibling of node `g`. -/
def siblingIndex (g : Nat) : Nat :=
  if g % 2 = 0 then g + 1 else g - 1

/-- Modelled from the spec: the siblings met while walking from the node with
generalized index `g`, which has `h` levels below it, up `k` levels towards
the root; the sibling nearest the leaves comes first. -/
def walkUp (H : Value → Value → Value) (d : Nat) (leaves : Nat → Value) :
    Nat → Nat → Nat → List Value
  | 0, _, _ => []
  | k + 1, h, g => treeNode H d leaves h (siblingIndex g) :: walkUp H d leaves k (h + 1) (g / 2)

/-- Modelled from the spec: the proof branch of leaf `i` in the tree of depth
`d`: the walk from generalized index `2 ^ d + i` up to the root. -/
def treeBranch (H : Value → Value → Value) (d : Nat) (leaves : Nat → Value) (i : Nat) :
    List Value :=
  walkUp H d leaves d 0 (2 ^ d + i)

/-- Modelled from the spec: the tampering step of the tamper-sensitivity
property, which the repository does not contain: the value `v` with the byte at
position `i` replaced by `b`. -/
def setByte (v : Value) (i : Fin 32) (b : Byte) : Value :=
  ⟨v.1.set i.1 b, by rw [List.length_set]; exact v.2⟩

/-- The byte of `v` at position `i`. -/
def byteAt (v : Value) (i : Fin 32) : Byte :=
  v.1.get ⟨i.1, by rw [v.2]; exact i.2⟩

/-- Results of `VerifyProof` can be compared. -/
instance instDecidableEqResult : DecidableEq (Except VerifyError Unit)
  | .ok (), .ok () => isTrue rfl
  | .error a, .error b =>
    if h : a = b then isTrue (by rw [h]) else isFalse (fun he => h (by injection he))
  | .ok (), .error _ => isFalse (fun he => by injection he)
  | .error _, .ok () => isFalse (fun he => by injection he)

/-- One step of `specFold`: the side is chosen by bit `k` of the index. -/
def foldStep (H : Value → Value → Value) (index k : Nat) (value sibling : Value) : Value :=
  if index.testBit k = false then H value sibling else H sibling value

/-- Values are finitely many. -/
instance instFintypeValue : Fintype Value := inferInstanceAs (Fintype (Mathlib.Vector Byte 32))

/-! ### Concrete values used to exercise the definitions -/

/-- The value whose 32 bytes are all `b`. -/
def constValue (b : Byte) : Value := ⟨List.replicate 32 b, by simp⟩

/-- A small stand-in for the hash: bytewise `x + 3 * y`. It is not commutative
and it is injective in each argument. -/
def sampleHash (a b : Value) : Value :=
  ⟨List.zipWith (fun x y => x + 3 * y) a.1 b.1, by simp [a.2, b.2]⟩

end Merkle

/-! ## counter/counter.go -/

namespace Service

/-- The number of `uint64` values; `counter.Value++` is addition modulo it. -/
def uint64Size : Nat := 2 ^ 64

/-- Go `type Counter struct { CounterID uint64; Value uint64 }`. -/
structure Counter where
  CounterID : Nat
  Value : Nat
  deriving DecidableEq, Repr

/-- Go `type Certificate struct { CounterID uint64; Value uint64; Nonce uint64 }`. -/
structure Certificate where
  CounterID : Nat
  Value : Nat
  Nonce : Nat
  deriving DecidableEq, Repr

/-- Go `type VirtualMonotonicCounter struct { Counters map[uint64]*Counter }`. -/
structure VirtualMonotonicCounter where
  Counters : Finmap (fun _ : Nat => Counter)
  deriving DecidableEq

/-- Go `VirtualMonotonicCounter{Counters: make(map[uint64]*Counter)}`, the state
`main` starts from. -/
def emptyService : VirtualMonotonicCounter := ⟨∅⟩

/-- Go `func (vmc *VirtualMonotonicCounter) CreateNewCounter(nonce uint64) *Certificate`.
`generated` is the value returned by `generateCounterID()`; the result is the
service after the call and the certificate. -/
def CreateNewCounter (vmc : VirtualMonotonicCounter) (generated nonce : Nat) :
    VirtualMonotonicCounter × Certificate :=
  let counterID := generated
  let newCounter : Counter := { CounterID := counterID, Value := 0 }
  ({ Counters := vmc.Counters.insert counterID newCounter },
    { CounterID := counterID, Value := newCounter.Value, Nonce := nonce })

/-- Go `func (vmc *VirtualMonotonicCounter) ReadCounter(counterID, nonce uint64) *Certificate`;
`none` is the `nil` result. -/
def ReadCounter (vmc : VirtualMonotonicCounter) (counterID nonce : Nat) :
    VirtualMonotonicCounter × Option Certificate :=
  match vmc.Counters.lookup counterID with
  | none => (vmc, none)
  | some counter =>
    (vmc, some { CounterID := counter.CounterID, Value := counter.Value, Nonce := nonce })

/-- Go `func (vmc *VirtualMonotonicCounter) IncrementCounter(counterID, nonce uint64) *Certificate`;
the `counter.Value++` through the stored pointer updates the entry of the map. -/
def IncrementCounter (vmc : VirtualMonotonicCounter) (counterID nonce : Nat) :
    VirtualMonotonicCounter × Option Certificate :=
  match vmc.Counters.lookup counterID with
  | none => (vmc, none)
  | some counter =>
    let counter1 : Counter := { counter with Value := (counter.Value + 1) % uint64Size }
    ({ Counters := vmc.Counters.insert counterID counter1 },
      some { CounterID := counter1.CounterID, Value := counter1.Value, Nonce := nonce })

/-- Go `func (vmc *VirtualMonotonicCounter) DestroyCounter(counterID, nonce uint64) *Certificate`;
the certificate leaves `Value` at its zero value. -/
def DestroyCounter (vmc : VirtualMonotonicCounter) (counterID nonce : Nat) :
    VirtualMonotonicCounter × Option Certificate :=
  match vmc.Counters.lookup counterID with
  | none => (vmc, none)
  | some counter =>
    ({ Counters := vmc.Counters.erase counterID },
      some { CounterID := counter.CounterID, Value := 0, Nonce := nonce })

/-- One call of the service: the operation and its arguments, with the
identifier drawn by `generateCounterID` for a create. -/
inductive Op where
  | create (generated nonce : Nat)
  | read (counterID nonce : Nat)
  | increment (counterID nonce : Nat)
  | destroy (counterID nonce : Nat)
  deriving DecidableEq, Repr

/-- The arguments of the call are `uint64` values. -/
def Op.InRange : Op → Prop
  | .create generated nonce => generated < uint64Size ∧ nonce < uint64Size
  | .read counterID nonce => counterID < uint64Size ∧ nonce < uint64Size
  | .increment counterID nonce => counterID < uint64Size ∧ nonce < uint64Size
  | .destroy counterID nonce => counterID < uint64Size ∧ nonce < uint64Size

/-- Whether the arguments are in range can be computed. -/
instance instDecidableInRange (op : Op) : Decidable op.InRange := by
  cases op <;> unfold Op.InRange <;> infer_instance

/-- The service after one call, and the certificate returned (`none` for `nil`). -/
def step (vmc : VirtualMonotonicCounter) : Op → VirtualMonotonicCounter × Option Certificate
  | .create generated nonce =>
    let r := CreateNewCounter vmc generated nonce
    (r.1, some r.2)
  | .read counterID nonce => ReadCounter vmc counterID nonce
  | .increment counterID nonce => IncrementCounter vmc counterID nonce
  | .destroy counterID nonce => DestroyCounter vmc counterID nonce

/-- The states of the service reachable from the empty collection by calls of
the four operations with `uint64` arguments. -/
inductive Reachable : VirtualMonotonicCounter → Prop
  | empty : Reachable emptyService
  | step (vmc : VirtualMonotonicCounter) (op : Op) :
    Reachable vmc → op.InRange → Reachable (step vmc op).1

/-- The service after a sequence of calls. -/
def run (vmc : VirtualMonotonicCounter) : List Op → VirtualMonotonicCounter
  | [] => vmc
  | op :: ops => run (step vmc op).1 ops

/-- The service holding the single counter `counterID` with value `value`. -/
def single (counterID value : Nat) : VirtualMonotonicCounter :=
  { Counters := (∅ : Finmap (fun _ : Nat => Counter)).insert counterID
      { CounterID := counterID, Value := value } }

/-- The number of live counters: the size of the key set of the collection. -/
def liveCount (vmc : VirtualMonotonicCounter) : Nat :=
  vmc.Counters.keys.card

/-- The same call with another nonce. -/
def Op.withNonce : Op → Nat → Op
  | .create generated _, nonce => .create generated nonce
  | .read counterID _, nonce => .read counterID nonce
  | .increment counterID _, nonce => .increment counterID nonce
  | .destroy counterID _, nonce => .destroy counterID nonce

/-- The call is not a `CreateNewCounter` that draws the identifier `id`. -/
def Op.NotCreateOf (id : Nat) : Op → Prop
  | .create generated _ => generated ≠ id
  | _ => True

/-- Whether a call avoids drawing an identifier can be computed. -/
instance instDecidableNotCreateOf (id : Nat) (op : Op) : Decidable (op.NotCreateOf id) := by
  cases op <;> unfold Op.NotCreateOf <;> infer_instance

/-- Consecutive calls `IncrementCounter(counterID, nonce)`, one for each nonce of
the list in order: the service after the last call and the results of the calls
in order. -/
def incrementMany (vmc : VirtualMonotonicCounter) (counterID : Nat) :
    List Nat → VirtualMonotonicCounter × List (Option Certificate)
  | [] => (vmc, [])
  | nonce :: nonces =>
    let r := IncrementCounter vmc counterID nonce
    let rest := incrementMany r.1 counterID nonces
    (rest.1, r.2 :: rest.2)

end Service

/-! ## Properties of `VerifyProof` -/

namespace Merkle

/-- The side test of the loop reads bit `k` of the original index once the
running index has been shifted `k` times. -/
theorem land_one_shifted (index k : Nat) :
    ((index / 2 ^ k) &&& 1 = 0) ↔ index.testBit k = false := by
  rw [Nat.and_one_is_mod, Nat.testBit_to_div_mod]
  have h := Nat.mod_two_eq_zero_or_one (index / 2 ^ k)
  rcases h with h | h <;> simp [h]

/-- The loop in closed form: started after `k` shifts of `index`, it stops with
the extra-items error exactly when siblings remain and the running index is
below `2 ^ length`, and otherwise ends with the index shifted by the whole
branch and the folded value. -/
theorem verifyLoop_eq (H : Value → Value → Value) (index : Nat) :
    ∀ (branch : List Value) (k : Nat) (value : Value),
      verifyLoop H (index / 2 ^ k) branch value =
        if branch ≠ [] ∧ index / 2 ^ k < 2 ^ branch.length then
          .error .ExtraBranchItems
        else .ok (index / 2 ^ (k + branch.length), specFold H index k branch value) := by
  intro branch
  induction branch with
  | nil => intro k value; simp [verifyLoop, specFold]
  | cons sibling rest ih =>
    intro k value
    have hshift : (index / 2 ^ k) >>> 1 = index / 2 ^ (k + 1) := by
      rw [Nat.shiftRight_eq_div_pow, pow_one, Nat.div_div_eq_div_mul, pow_succ]
    have hlt : index / 2 ^ k < 2 ^ (rest.length + 1) ↔ index / 2 ^ (k + 1) < 2 ^ rest.length := by
      rw [← hshift, Nat.shiftRight_eq_div_pow, pow_one, pow_succ]
      omega
    have hside : (if (index / 2 ^ k) &&& 1 = 0 then H value sibling else H sibling value) =
        (if index.testBit k = false then H value sibling else H sibling value) := by
      by_cases hb : index.testBit k = false
      · rw [if_pos hb, if_pos ((land_one_shifted index k).2 hb)]
      · rw [if_neg hb, if_neg (fun h => hb ((land_one_shifted index k).1 h))]
    simp only [verifyLoop, hshift, hside, List.length_cons, ne_eq, reduceCtorEq,
      not_false_eq_true, true_and, hlt, specFold]
    by_cases h0 : index / 2 ^ (k + 1) = 0
    · have : index / 2 ^ (k + 1) < 2 ^ rest.length := by rw [h0]; exact Nat.pos_pow_of_pos _ (by norm_num)
      simp [h0]
    · rw [if_neg h0, ih (k + 1)]
      have hk : k + 1 + rest.length = k + (rest.length + 1) := by omega
      rw [hk]
      cases rest with
      | nil =>
        simp [h0]
      | cons s2 r2 => simp

/-- Division by `2 ^ n` gives 1 exactly for the indices with `n + 1`
significant bits. -/
theorem div_pow_eq_one_iff (index n : Nat) :
    index / 2 ^ n = 1 ↔ 2 ^ n ≤ index ∧ index < 2 ^ (n + 1) := by
  have hpos : 0 < 2 ^ n := Nat.pos_pow_of_pos _ (by norm_num)
  rw [pow_succ]
  constructor
  · intro h
    have h1 : 1 ≤ index / 2 ^ n := by omega
    have h2 : index / 2 ^ n < 2 := by omega
    rw [Nat.le_div_iff_mul_le hpos] at h1
    rw [Nat.div_lt_iff_lt_mul hpos] at h2
    omega
  · rintro ⟨h1, h2⟩
    have h3 : 1 ≤ index / 2 ^ n := by rw [Nat.le_div_iff_mul_le hpos]; omega
    have h4 : index / 2 ^ n < 2 := by rw [Nat.div_lt_iff_lt_mul hpos]; omega
    omega

/-- The verifier in closed form: the three errors in the order in which the
code tests for them. -/
theorem VerifyProof_eq (H : Value → Value → Value) (root : Value) (index : Nat)
    (branch : List Value) (value : Value) :
    VerifyProof H root index branch value =
      if branch ≠ [] ∧ index < 2 ^ branch.length then .error .ExtraBranchItems
      else if ¬ (2 ^ branch.length ≤ index ∧ index < 2 ^ (branch.length + 1)) then
        .error .MissingBranchItems
      else if specFold H index 0 branch value ≠ root then .error .RootMismatch
      else .ok () := by
  have h := verifyLoop_eq H index branch 0 value
  simp only [pow_zero, Nat.div_one, Nat.zero_add] at h
  unfold VerifyProof
  rw [h]
  by_cases hx : branch ≠ [] ∧ index < 2 ^ branch.length
  · rw [if_pos hx, if_pos hx]
  · rw [if_neg hx, if_neg hx]
    simp only [div_pow_eq_one_iff, ne_eq]

/-- A branch of 64 or more siblings is longer than any `uint64` index allows. -/
theorem lt_pow_of_uint64 {index n : Nat} (hidx : index < 2 ^ 64) (hn : 64 ≤ n) :
    index < 2 ^ n :=
  lt_of_lt_of_le hidx (Nat.pow_le_pow_right (by norm_num) hn)

/-- Replacing a byte by a different one gives a different value. -/
theorem setByte_ne (v : Value) (i : Fin 32) (b : Byte) (hb : b ≠ byteAt v i) :
    setByte v i b ≠ v := by
  intro he
  apply hb
  have hlen : i.1 < (v.1.set i.1 b).length := by rw [List.length_set, v.2]; exact i.2
  have h1 : (v.1.set i.1 b)[i.1] = b := List.getElem_set_self hlen
  have h2 : (setByte v i b).1 = v.1 := congrArg Subtype.val he
  simp only [setByte] at h2
  simp only [byteAt, List.get_eq_getElem]
  rw [← h1]
  simp only [h2]

/-- When the verifier returns `nil`. -/
theorem VerifyProof_ok_iff (H : Value → Value → Value) (root : Value) (index : Nat)
    (branch : List Value) (leaf : Value) :
    VerifyProof H root index branch leaf = .ok () ↔
      (2 ^ branch.length ≤ index ∧ index < 2 ^ (branch.length + 1)) ∧
        specFold H index 0 branch leaf = root := by
  rw [VerifyProof_eq]
  by_cases h1 : branch ≠ [] ∧ index < 2 ^ branch.length
  · rw [if_pos h1]
    constructor
    · intro h; cases h
    · rintro ⟨⟨h2, _⟩, _⟩; omega
  · rw [if_neg h1]
    by_cases h2 : 2 ^ branch.length ≤ index ∧ index < 2 ^ (branch.length + 1)
    · rw [if_neg (not_not.2 h2)]
      by_cases h3 : specFold H index 0 branch leaf = root
      · rw [if_neg (not_not.2 h3)]; exact ⟨fun _ => ⟨h2, h3⟩, fun _ => rfl⟩
      · rw [if_pos h3]
        constructor
        · intro h; cases h
        · rintro ⟨_, h4⟩; exact absurd h4 h3
    · rw [if_pos h2]
      constructor
      · intro h; cases h
      · rintro ⟨h4, _⟩; exact absurd h4 h2

/-- When the verifier returns "branch has extra items". -/
theorem VerifyProof_extra_iff (H : Value → Value → Value) (root : Value) (index : Nat)
    (branch : List Value) (leaf : Value) :
    VerifyProof H root index branch leaf = .error .ExtraBranchItems ↔
      branch ≠ [] ∧ index < 2 ^ branch.length := by
  rw [VerifyProof_eq]
  by_cases h1 : branch ≠ [] ∧ index < 2 ^ branch.length
  · rw [if_pos h1]; exact ⟨fun _ => h1, fun _ => rfl⟩
  · rw [if_neg h1]
    constructor
    · intro h
      split_ifs at h <;> cases h
    · intro h; exact absurd h h1

/-- When the verifier returns "branch is missing items". -/
theorem VerifyProof_missing_iff (H : Value → Value → Value) (root : Value) (index : Nat)
    (branch : List Value) (leaf : Value) :
    VerifyProof H root index branch leaf = .error .MissingBranchItems ↔
      2 ^ (branch.length + 1) ≤ index ∨ (branch.length = 0 ∧ index = 0) := by
  rw [VerifyProof_eq]
  have hmono : 2 ^ branch.length ≤ 2 ^ (branch.length + 1) :=
    Nat.pow_le_pow_right (by norm_num) (Nat.le_succ _)
  by_cases h1 : branch ≠ [] ∧ index < 2 ^ branch.length
  · rw [if_pos h1]
    constructor
    · intro h; cases h
    · rintro (h | ⟨h, _⟩)
      · omega
      · exact absurd (List.length_eq_zero.1 h) h1.1
  · rw [if_neg h1]
    by_cases h2 : 2 ^ branch.length ≤ index ∧ index < 2 ^ (branch.length + 1)
    · rw [if_neg (not_not.2 h2)]
      constructor
      · intro h
        split_ifs at h
        cases h
      · rintro (h | ⟨h, h0⟩)
        · omega
        · have := Nat.pos_pow_of_pos branch.length (show 0 < 2 by norm_num)
          omega
    · rw [if_pos h2]
      refine ⟨fun _ => ?_, fun _ => rfl⟩
      by_cases h3 : 2 ^ (branch.length + 1) ≤ index
      · exact Or.inl h3
      · right
        have h4 : index < 2 ^ branch.length := by
          by_contra h5
          exact h2 ⟨by omega, by omega⟩
        have h5 : branch = [] := by
          by_contra h6
          exact h1 ⟨h6, h4⟩
        rw [h5] at h4 ⊢
        simp only [List.length_nil, pow_zero] at h4
        exact ⟨rfl, by omega⟩

/-- When the verifier returns "root mismatch". -/
theorem VerifyProof_mismatch_iff (H : Value → Value → Value) (root : Value) (index : Nat)
    (branch : List Value) (leaf : Value) :
    VerifyProof H root index branch leaf = .error .RootMismatch ↔
      (2 ^ branch.length ≤ index ∧ index < 2 ^ (branch.length + 1)) ∧
        specFold H index 0 branch leaf ≠ root := by
  rw [VerifyProof_eq]
  by_cases h1 : branch ≠ [] ∧ index < 2 ^ branch.length
  · rw [if_pos h1]
    constructor
    · intro h; cases h
    · rintro ⟨⟨h2, _⟩, _⟩; omega
  · rw [if_neg h1]
    by_cases h2 : 2 ^ branch.length ≤ index ∧ index < 2 ^ (branch.length + 1)
    · rw [if_neg (not_not.2 h2)]
      by_cases h3 : specFold H index 0 branch leaf = root
      · rw [if_neg (not_not.2 h3)]
        constructor
        · intro h; cases h
        · rintro ⟨_, h4⟩; exact absurd h3 h4
      · rw [if_pos h3]; exact ⟨fun _ => ⟨h2, h3⟩, fun _ => rfl⟩
    · rw [if_pos h2]
      constructor
      · intro h; cases h
      · rintro ⟨h4, _⟩; exact absurd h4 h2

/-- The only error the loop itself returns is "branch has extra items". -/
theorem verifyLoop_error (H : Value → Value → Value) (index : Nat) (branch : List Value)
    (leaf : Value) (e : VerifyError) (h : verifyLoop H index branch leaf = .error e) :
    e = .ExtraBranchItems := by
  rw [show index = index / 2 ^ 0 by simp, verifyLoop_eq] at h
  split_ifs at h
  injection h with h
  exact h.symm

/-- C2. Exact success condition: `VerifyProof` returns `nil` if and only if the
index has exactly `n + 1` significant bits, `n` the branch length, and folding
the branch from the leaf (bit `k` of the index choosing the side at step `k`)
gives the root; with an empty branch that is `index = 1` and `leaf = root`. -/
theorem C2_success_iff (H : Value → Value → Value) (root : Value) (index : Nat)
    (branch : List Value) (leaf : Value) (_hidx : index < 2 ^ 64) :
    (VerifyProof H root index branch leaf = .ok () ↔
      (2 ^ branch.length ≤ index ∧ index < 2 ^ (branch.length + 1)) ∧
        specFold H index 0 branch leaf = root) ∧
    (VerifyProof H root index [] leaf = .ok () ↔ index = 1 ∧ leaf = root) := by
  refine ⟨VerifyProof_ok_iff H root index branch leaf, ?_⟩
  rw [VerifyProof_ok_iff]
  simp only [List.length_nil, pow_zero, Nat.zero_add, pow_one, specFold]
  constructor
  · rintro ⟨⟨h1, h2⟩, h3⟩; exact ⟨by omega, h3⟩
  · rintro ⟨h1, h3⟩; exact ⟨⟨by omega, by omega⟩, h3⟩

/-- C2 at index 5 with a two-sibling branch. -/
theorem C2_success_iff_witness :
    (5 : Nat) < 2 ^ 64 ∧
    ((VerifyProof sampleHash (constValue 9) 5 [constValue 1, constValue 2] (constValue 3) = .ok () ↔
      (2 ^ [constValue 1, constValue 2].length ≤ 5 ∧
        5 < 2 ^ ([constValue 1, constValue 2].length + 1)) ∧
        specFold sampleHash 5 0 [constValue 1, constValue 2] (constValue 3) = constValue 9) ∧
    (VerifyProof sampleHash (constValue 9) 5 [] (constValue 3) = .ok () ↔
      5 = 1 ∧ constValue 3 = constValue 9)) :=
  ⟨by decide, C2_success_iff sampleHash (constValue 9) 5 [constValue 1, constValue 2]
    (constValue 3) (by decide)⟩

/-- C3. `VerifyProof` fails with "branch has extra items" if and only if the
branch is non-empty and `index < 2 ^ n`, `n` the branch length; index 0 with a
non-empty branch and every branch of 64 or more items are such cases; the
outcome is the same for any other root, leaf, hash and siblings (a branch of
the same length), and it is returned even when the folded value differs from
the root. -/
theorem C3_extra_items_iff (H : Value → Value → Value) (root : Value) (index : Nat)
    (branch : List Value) (leaf : Value) (hidx : index < 2 ^ 64) :
    (VerifyProof H root index branch leaf = .error .ExtraBranchItems ↔
      branch ≠ [] ∧ index < 2 ^ branch.length) ∧
    (index = 0 → branch ≠ [] →
      VerifyProof H root index branch leaf = .error .ExtraBranchItems) ∧
    (64 ≤ branch.length → VerifyProof H root index branch leaf = .error .ExtraBranchItems) ∧
    (∀ (H2 : Value → Value → Value) (root2 leaf2 : Value) (branch2 : List Value),
      branch2.length = branch.length →
      (VerifyProof H2 root2 index branch2 leaf2 = .error .ExtraBranchItems ↔
        VerifyProof H root index branch leaf = .error .ExtraBranchItems)) ∧
    (branch ≠ [] → index < 2 ^ branch.length → specFold H index 0 branch leaf ≠ root →
      VerifyProof H root index branch leaf = .error .ExtraBranchItems) := by
  refine ⟨VerifyProof_extra_iff H root index branch leaf, ?_, ?_, ?_, ?_⟩
  · intro h0 hne
    exact (VerifyProof_extra_iff H root index branch leaf).2
      ⟨hne, by rw [h0]; exact Nat.pos_pow_of_pos _ (by norm_num)⟩
  · intro h64
    refine (VerifyProof_extra_iff H root index branch leaf).2 ⟨?_, lt_pow_of_uint64 hidx h64⟩
    intro he
    rw [he] at h64
    simp at h64
  · intro H2 root2 leaf2 branch2 hlen
    rw [VerifyProof_extra_iff, VerifyProof_extra_iff, hlen]
    constructor
    · rintro ⟨h1, h2⟩
      refine ⟨?_, h2⟩
      intro he; apply h1
      rw [he] at hlen
      exact List.length_eq_zero.1 hlen
    · rintro ⟨h1, h2⟩
      refine ⟨?_, h2⟩
      intro he; apply h1
      rw [he] at hlen
      exact List.length_eq_zero.1 hlen.symm
  · intro hne hlt _
    exact (VerifyProof_extra_iff H root index branch leaf).2 ⟨hne, hlt⟩

/-- C3 at index 0 with a branch of 64 siblings and a root that the fold does
not reach, and against another hash, root, leaf and siblings. -/
theorem C3_extra_items_iff_witness :
    (0 : Nat) < 2 ^ 64 ∧ 64 ≤ (List.replicate 64 (constValue 1)).length ∧
    List.replicate 64 (constValue 1) ≠ [] ∧
    specFold sampleHash 0 0 (List.replicate 64 (constValue 1)) (constValue 3) ≠ constValue 9 ∧
    VerifyProof sampleHash (constValue 9) 0 (List.replicate 64 (constValue 1)) (constValue 3) =
      .error .ExtraBranchItems ∧
    (List.replicate 64 (constValue 2)).length = (List.replicate 64 (constValue 1)).length ∧
    (VerifyProof (fun a _ => a) (constValue 4) 0 (List.replicate 64 (constValue 2))
        (constValue 5) = .error .ExtraBranchItems ↔
      VerifyProof sampleHash (constValue 9) 0 (List.replicate 64 (constValue 1)) (constValue 3) =
        .error .ExtraBranchItems) :=
  ⟨by decide, by decide, by decide, by decide,
    (C3_extra_items_iff sampleHash (constValue 9) 0 (List.replicate 64 (constValue 1))
      (constValue 3) (by decide)).2.2.1 (by decide),
    by decide,
    (C3_extra_items_iff sampleHash (constValue 9) 0 (List.replicate 64 (constValue 1))
      (constValue 3) (by decide)).2.2.2.1 (fun a _ => a) (constValue 4) (constValue 5)
      (List.replicate 64 (constValue 2)) (by decide)⟩

/-- C4. `VerifyProof` fails with "branch is missing items" if and only if
`index ≥ 2 ^ (n + 1)`, `n` the branch length, or the branch is empty and the
index is 0; that is, exactly when the loop consumes the branch without the
extra-items error and leaves a shifted index other than 1. The outcome is the
same for any other root, leaf, hash and siblings (a branch of the same
length). -/
theorem C4_missing_items_iff (H : Value → Value → Value) (root : Value) (index : Nat)
    (branch : List Value) (leaf : Value) (_hidx : index < 2 ^ 64) :
    (VerifyProof H root index branch leaf = .error .MissingBranchItems ↔
      2 ^ (branch.length + 1) ≤ index ∨ (branch = [] ∧ index = 0)) ∧
    (VerifyProof H root index branch leaf = .error .MissingBranchItems ↔
      ∃ index1 value1, verifyLoop H index branch leaf = .ok (index1, value1) ∧ index1 ≠ 1) ∧
    (∀ (H2 : Value → Value → Value) (root2 leaf2 : Value) (branch2 : List Value),
      branch2.length = branch.length →
      (VerifyProof H2 root2 index branch2 leaf2 = .error .MissingBranchItems ↔
        VerifyProof H root index branch leaf = .error .MissingBranchItems)) := by
  refine ⟨?_, ?_, ?_⟩
  · rw [VerifyProof_missing_iff, List.length_eq_zero]
  · unfold VerifyProof
    cases hloop : verifyLoop H index branch leaf with
    | error e =>
      have he : e = .ExtraBranchItems := verifyLoop_error H index branch leaf e hloop
      subst he
      constructor
      · intro h; cases h
      · rintro ⟨_, _, h, _⟩; cases h
    | ok r =>
      obtain ⟨index1, value1⟩ := r
      simp only [ne_eq]
      constructor
      · intro h
        refine ⟨index1, value1, rfl, ?_⟩
        intro h1
        rw [if_neg (not_not.2 h1)] at h
        split_ifs at h
        cases h
      · rintro ⟨i1, v1, h, hne⟩
        injection h with h
        injection h with ha hb
        subst ha
        rw [if_pos hne]
  · intro H2 root2 leaf2 branch2 hlen
    rw [VerifyProof_missing_iff, VerifyProof_missing_iff, hlen]

/-- C4 at index 9 with a one-sibling branch, and against another hash, root,
leaf and sibling. -/
theorem C4_missing_items_iff_witness :
    (9 : Nat) < 2 ^ 64 ∧
    VerifyProof sampleHash (constValue 9) 9 [constValue 1] (constValue 3) =
      .error .MissingBranchItems ∧
    [constValue 2].length = [constValue 1].length ∧
    (VerifyProof (fun a _ => a) (constValue 4) 9 [constValue 2] (constValue 5) =
        .error .MissingBranchItems ↔
      VerifyProof sampleHash (constValue 9) 9 [constValue 1] (constValue 3) =
        .error .MissingBranchItems) :=
  ⟨by decide,
    (C4_missing_items_iff sampleHash (constValue 9) 9 [constValue 1]
      (constValue 3) (by decide)).1.2 (Or.inl (by decide)),
    by decide,
    (C4_missing_items_iff sampleHash (constValue 9) 9 [constValue 1]
      (constValue 3) (by decide)).2.2 (fun a _ => a) (constValue 4) (constValue 5)
      [constValue 2] (by decide)⟩

/-- C5. Branch length sensitivity: when `VerifyProof` succeeds, the same call
with the last sibling removed from a non-empty branch fails with "branch is
missing items", and the same call with any one sibling appended fails with
"branch has extra items". -/
theorem C5_branch_length_sensitivity (H : Value → Value → Value) (root : Value) (index : Nat)
    (branch : List Value) (leaf : Value) (_hidx : index < 2 ^ 64)
    (hok : VerifyProof H root index branch leaf = .ok ()) :
    (branch ≠ [] →
      VerifyProof H root index branch.dropLast leaf = .error .MissingBranchItems) ∧
    (∀ extra : Value,
      VerifyProof H root index (branch ++ [extra]) leaf = .error .ExtraBranchItems) := by
  obtain ⟨⟨hlo, hhi⟩, _⟩ := (VerifyProof_ok_iff H root index branch leaf).1 hok
  constructor
  · intro hne
    have hlen : branch.dropLast.length + 1 = branch.length := by
      rw [List.length_dropLast]
      have : 0 < branch.length := List.length_pos.2 hne
      omega
    exact (VerifyProof_missing_iff H root index branch.dropLast leaf).2
      (Or.inl (by rw [hlen]; exact hlo))
  · intro extra
    refine (VerifyProof_extra_iff H root index (branch ++ [extra]) leaf).2 ⟨by simp, ?_⟩
    rw [List.length_append, List.length_singleton]
    exact hhi

/-- C5 on the proof of leaf 1 in the tree of depth 2 over the leaves
`constValue 0 .. constValue 3`: index 5, siblings leaf 0 and `Hash(leaf 2 || leaf 3)`. -/
theorem C5_branch_length_sensitivity_witness :
    (5 : Nat) < 2 ^ 64 ∧
    VerifyProof sampleHash (constValue 36) 5 [constValue 0, constValue 11] (constValue 1) =
      .ok () ∧
    [constValue 0, constValue 11] ≠ [] ∧
    VerifyProof sampleHash (constValue 36) 5 [constValue 0, constValue 11].dropLast
      (constValue 1) = .error .MissingBranchItems ∧
    VerifyProof sampleHash (constValue 36) 5 ([constValue 0, constValue 11] ++ [constValue 7])
      (constValue 1) = .error .ExtraBranchItems :=
  ⟨by decide, by decide, by decide,
    (C5_branch_length_sensitivity sampleHash (constValue 36) 5 [constValue 0, constValue 11]
      (constValue 1) (by decide) (by decide)).1 (by decide),
    (C5_branch_length_sensitivity sampleHash (constValue 36) 5 [constValue 0, constValue 11]
      (constValue 1) (by decide) (by decide)).2 (constValue 7)⟩

/-- C6. Root tamper sensitivity: when `VerifyProof` succeeds for `root`, it
fails with "root mismatch" for every other root, in particular for `root` with
any one byte replaced by a different byte. -/
theorem C6_root_tamper (H : Value → Value → Value) (root : Value) (index : Nat)
    (branch : List Value) (leaf : Value) (_hidx : index < 2 ^ 64)
    (hok : VerifyProof H root index branch leaf = .ok ()) :
    (∀ root2 : Value, root2 ≠ root →
      VerifyProof H root2 index branch leaf = .error .RootMismatch) ∧
    (∀ (i : Fin 32) (b : Byte), b ≠ byteAt root i →
      VerifyProof H (setByte root i b) index branch leaf = .error .RootMismatch) := by
  obtain ⟨hbits, hfold⟩ := (VerifyProof_ok_iff H root index branch leaf).1 hok
  have key : ∀ root2 : Value, root2 ≠ root →
      VerifyProof H root2 index branch leaf = .error .RootMismatch := by
    intro root2 hne
    refine (VerifyProof_mismatch_iff H root2 index branch leaf).2 ⟨hbits, ?_⟩
    rw [hfold]
    exact fun h => hne h.symm
  exact ⟨key, fun i b hb => key _ (setByte_ne root i b hb)⟩

/-- C6 on the proof of leaf 1 in the tree of depth 2 over the leaves
`constValue 0 .. constValue 3`, with byte 4 of the root replaced by 200. -/
theorem C6_root_tamper_witness :
    (5 : Nat) < 2 ^ 64 ∧
    VerifyProof sampleHash (constValue 36) 5 [constValue 0, constValue 11] (constValue 1) =
      .ok () ∧
    constValue 37 ≠ constValue 36 ∧
    VerifyProof sampleHash (constValue 37) 5 [constValue 0, constValue 11] (constValue 1) =
      .error .RootMismatch ∧
    (200 : Byte) ≠ byteAt (constValue 36) 4 ∧
    VerifyProof sampleHash (setByte (constValue 36) 4 200) 5 [constValue 0, constValue 11]
      (constValue 1) = .error .RootMismatch :=
  ⟨by decide, by decide, by decide,
    (C6_root_tamper sampleHash (constValue 36) 5 [constValue 0, constValue 11]
      (constValue 1) (by decide) (by decide)).1 (constValue 37) (by decide),
    by decide,
    (C6_root_tamper sampleHash (constValue 36) 5 [constValue 0, constValue 11]
      (constValue 1) (by decide) (by decide)).2 4 200 (by decide)⟩

/-- A hash without collisions in either argument gives a fold step without
collisions in the running value. -/
theorem foldStep_value_injective (H : Value → Value → Value)
    (hleft : ∀ s : Value, Function.Injective (fun v => H v s))
    (hright : ∀ s : Value, Function.Injective (fun v => H s v))
    (index k : Nat) (s v1 v2 : Value) (h : foldStep H index k v1 s = foldStep H index k v2 s) :
    v1 = v2 := by
  unfold foldStep at h
  by_cases hb : index.testBit k = false
  · rw [if_pos hb, if_pos hb] at h; exact hleft s h
  · rw [if_neg hb, if_neg hb] at h; exact hright s h

/-- A hash without collisions in either argument gives a fold step without
collisions in the sibling. -/
theorem foldStep_sibling_injective (H : Value → Value → Value)
    (hleft : ∀ s : Value, Function.Injective (fun v => H v s))
    (hright : ∀ s : Value, Function.Injective (fun v => H s v))
    (index k : Nat) (v s1 s2 : Value) (h : foldStep H index k v s1 = foldStep H index k v s2) :
    s1 = s2 := by
  unfold foldStep at h
  by_cases hb : index.testBit k = false
  · rw [if_pos hb, if_pos hb] at h; exact hright v h
  · rw [if_neg hb, if_neg hb] at h; exact hleft v h

/-- The fold is injective in the value it starts from. -/
theorem specFold_injective (H : Value → Value → Value)
    (hleft : ∀ s : Value, Function.Injective (fun v => H v s))
    (hright : ∀ s : Value, Function.Injective (fun v => H s v)) (index : Nat) :
    ∀ (branch : List Value) (k : Nat) (v1 v2 : Value),
      specFold H index k branch v1 = specFold H index k branch v2 → v1 = v2 := by
  intro branch
  induction branch with
  | nil => intro k v1 v2 h; simpa [specFold] using h
  | cons s rest ih =>
    intro k v1 v2 h
    simp only [specFold] at h
    exact foldStep_value_injective H hleft hright index k s v1 v2 (ih (k + 1) _ _ h)

/-- Replacing one sibling by a different value changes the folded value. -/
theorem specFold_set_ne (H : Value → Value → Value)
    (hleft : ∀ s : Value, Function.Injective (fun v => H v s))
    (hright : ∀ s : Value, Function.Injective (fun v => H s v)) (index : Nat) :
    ∀ (branch : List Value) (k : Nat) (v : Value) (j : Fin branch.length) (s2 : Value),
      s2 ≠ branch.get j →
      specFold H index k (branch.set j.1 s2) v ≠ specFold H index k branch v := by
  intro branch
  induction branch with
  | nil => intro k v j; exact j.elim0
  | cons s rest ih =>
    intro k v j s2 hne
    obtain ⟨j, hj⟩ := j
    cases j with
    | zero =>
      simp only [List.set_cons_zero, specFold]
      intro h
      apply hne
      have h1 := specFold_injective H hleft hright index rest (k + 1) _ _ h
      exact foldStep_sibling_injective H hleft hright index k v s2 s h1
    | succ j =>
      simp only [List.set_cons_succ, specFold]
      have hj2 : j < rest.length := by simpa using hj
      exact ih (k + 1) _ ⟨j, hj2⟩ s2 (by simpa using hne)

/-- A hash without collisions on pairs has none in either argument. -/
theorem separately_injective_of_injective (H : Value → Value → Value)
    (hinj : Function.Injective (fun p : Value × Value => H p.1 p.2)) :
    (∀ s : Value, Function.Injective (fun v => H v s)) ∧
      (∀ s : Value, Function.Injective (fun v => H s v)) := by
  constructor
  · intro s v1 v2 h
    have := @hinj (v1, s) (v2, s) h
    exact congrArg Prod.fst this
  · intro s v1 v2 h
    have := @hinj (s, v1) (s, v2) h
    exact congrArg Prod.snd this

/-- No function from two 32-byte values to one is injective on pairs, which is
why the tamper property below asks for no collisions in each argument. -/
theorem not_injective_on_pairs (H : Value → Value → Value) :
    ¬ Function.Injective (fun p : Value × Value => H p.1 p.2) := by
  intro hinj
  have h := Fintype.card_le_of_injective _ hinj
  rw [Fintype.card_prod] at h
  have h2 : 1 < Fintype.card Value :=
    Fintype.one_lt_card_iff.2 ⟨constValue 0, constValue 1, by decide⟩
  nlinarith

/-- On lists of equal length, a bytewise combination that is injective in its
first argument is injective in its first list. -/
theorem zipWith_left_injective (f : Byte → Byte → Byte)
    (hf : ∀ x1 x2 y, f x1 y = f x2 y → x1 = x2) :
    ∀ (a1 a2 s : List Byte), a1.length = s.length → a2.length = s.length →
      List.zipWith f a1 s = List.zipWith f a2 s → a1 = a2 := by
  intro a1
  induction a1 with
  | nil =>
    intro a2 s h1 h2 _
    cases a2 with
    | nil => rfl
    | cons x2 xs2 => rw [← h1] at h2; simp at h2
  | cons x1 xs1 ih =>
    intro a2 s h1 h2 h
    cases s with
    | nil => simp at h1
    | cons y ys =>
      cases a2 with
      | nil => simp at h2
      | cons x2 xs2 =>
        simp only [List.zipWith_cons_cons, List.cons.injEq] at h
        simp only [List.length_cons, Nat.add_right_cancel_iff] at h1 h2
        rw [hf x1 x2 y h.1, ih xs2 ys h1 h2 h.2]

/-- On lists of equal length, a bytewise combination that is injective in its
second argument is injective in its second list. -/
theorem zipWith_right_injective (f : Byte → Byte → Byte)
    (hf : ∀ x y1 y2, f x y1 = f x y2 → y1 = y2) :
    ∀ (s b1 b2 : List Byte), b1.length = s.length → b2.length = s.length →
      List.zipWith f s b1 = List.zipWith f s b2 → b1 = b2 := by
  intro s
  induction s with
  | nil =>
    intro b1 b2 h1 h2 _
    rw [List.length_nil, List.length_eq_zero] at h1 h2
    rw [h1, h2]
  | cons x xs ih =>
    intro b1 b2 h1 h2 h
    cases b1 with
    | nil => simp at h1
    | cons y1 ys1 =>
      cases b2 with
      | nil => simp at h2
      | cons y2 ys2 =>
        simp only [List.zipWith_cons_cons, List.cons.injEq] at h
        simp only [List.length_cons, Nat.add_right_cancel_iff] at h1 h2
        rw [hf x y1 y2 h.1, ih ys1 ys2 h1 h2 h.2]

/-- Multiplication by 3 is injective on bytes. -/
theorem three_mul_injective (x y : Byte) (h : 3 * x = 3 * y) : x = y := by
  have h171 : (171 : Byte) * 3 = 1 := by decide
  calc x = 171 * 3 * x := by rw [h171, one_mul]
    _ = 171 * (3 * x) := by rw [mul_assoc]
    _ = 171 * (3 * y) := by rw [h]
    _ = 171 * 3 * y := by rw [mul_assoc]
    _ = y := by rw [h171, one_mul]

/-- The sample hash has no collisions in its first argument. -/
theorem sampleHash_left_injective (s : Value) : Function.Injective (fun v => sampleHash v s) := by
  intro v1 v2 h
  have h1 : (sampleHash v1 s).1 = (sampleHash v2 s).1 := congrArg Subtype.val h
  apply Subtype.ext
  exact zipWith_left_injective (fun x y => x + 3 * y) (fun x1 x2 y hxy => add_right_cancel hxy)
    v1.1 v2.1 s.1 (by rw [v1.2, s.2]) (by rw [v2.2, s.2]) h1

/-- The sample hash has no collisions in its second argument. -/
theorem sampleHash_right_injective (s : Value) : Function.Injective (fun v => sampleHash s v) := by
  intro v1 v2 h
  have h1 : (sampleHash s v1).1 = (sampleHash s v2).1 := congrArg Subtype.val h
  apply Subtype.ext
  exact zipWith_right_injective (fun x y => x + 3 * y)
    (fun x y1 y2 hxy => three_mul_injective y1 y2 (add_left_cancel hxy))
    s.1 v1.1 v2.1 (by rw [v1.2, s.2]) (by rw [v2.2, s.2]) h1

/-- C7. Leaf and sibling tamper sensitivity: when `VerifyProof` succeeds and
the hash has no collisions in either argument (which a hash without collisions
on pairs has), replacing the leaf, or exactly one sibling of the branch, by a
different value (in particular by the same value with one byte replaced by a
different byte) makes `VerifyProof` fail with "root mismatch". -/
theorem C7_leaf_sibling_tamper (H : Value → Value → Value) (root : Value) (index : Nat)
    (branch : List Value) (leaf : Value) (_hidx : index < 2 ^ 64)
    (hleft : ∀ s : Value, Function.Injective (fun v => H v s))
    (hright : ∀ s : Value, Function.Injective (fun v => H s v))
    (hok : VerifyProof H root index branch leaf = .ok ()) :
    (∀ leaf2 : Value, leaf2 ≠ leaf →
      VerifyProof H root index branch leaf2 = .error .RootMismatch) ∧
    (∀ (j : Fin branch.length) (s2 : Value), s2 ≠ branch.get j →
      VerifyProof H root index (branch.set j.1 s2) leaf = .error .RootMismatch) ∧
    (∀ (i : Fin 32) (b : Byte), b ≠ byteAt leaf i →
      VerifyProof H root index branch (setByte leaf i b) = .error .RootMismatch) ∧
    (∀ (j : Fin branch.length) (i : Fin 32) (b : Byte), b ≠ byteAt (branch.get j) i →
      VerifyProof H root index (branch.set j.1 (setByte (branch.get j) i b)) leaf =
        .error .RootMismatch) := by
  obtain ⟨hbits, hfold⟩ := (VerifyProof_ok_iff H root index branch leaf).1 hok
  have hleaf : ∀ leaf2 : Value, leaf2 ≠ leaf →
      VerifyProof H root index branch leaf2 = .error .RootMismatch := by
    intro leaf2 hne
    refine (VerifyProof_mismatch_iff H root index branch leaf2).2 ⟨hbits, ?_⟩
    rw [← hfold]
    exact fun h => hne (specFold_injective H hleft hright index branch 0 _ _ h)
  have hsib : ∀ (j : Fin branch.length) (s2 : Value), s2 ≠ branch.get j →
      VerifyProof H root index (branch.set j.1 s2) leaf = .error .RootMismatch := by
    intro j s2 hne
    refine (VerifyProof_mismatch_iff H root index (branch.set j.1 s2) leaf).2 ⟨?_, ?_⟩
    · rw [List.length_set]; exact hbits
    · rw [← hfold]
      exact specFold_set_ne H hleft hright index branch 0 leaf j s2 hne
  exact ⟨hleaf, hsib, fun i b hb => hleaf _ (setByte_ne leaf i b hb),
    fun j i b hb => hsib j _ (setByte_ne _ i b hb)⟩

/-- C7 on the proof of leaf 1 in the tree of depth 2 over the leaves
`constValue 0 .. constValue 3`: a changed leaf, and a changed second sibling. -/
theorem C7_leaf_sibling_tamper_witness :
    (5 : Nat) < 2 ^ 64 ∧
    (∀ s : Value, Function.Injective (fun v => sampleHash v s)) ∧
    (∀ s : Value, Function.Injective (fun v => sampleHash s v)) ∧
    VerifyProof sampleHash (constValue 36) 5 [constValue 0, constValue 11] (constValue 1) =
      .ok () ∧
    constValue 2 ≠ constValue 1 ∧
    VerifyProof sampleHash (constValue 36) 5 [constValue 0, constValue 11] (constValue 2) =
      .error .RootMismatch ∧
    constValue 12 ≠ [constValue 0, constValue 11].get ⟨1, by decide⟩ ∧
    VerifyProof sampleHash (constValue 36) 5 ([constValue 0, constValue 11].set 1 (constValue 12))
      (constValue 1) = .error .RootMismatch :=
  ⟨by decide, sampleHash_left_injective, sampleHash_right_injective, by decide, by decide,
    (C7_leaf_sibling_tamper sampleHash (constValue 36) 5 [constValue 0, constValue 11]
      (constValue 1) (by decide) sampleHash_left_injective sampleHash_right_injective
      (by decide)).1 (constValue 2) (by decide),
    by decide,
    (C7_leaf_sibling_tamper sampleHash (constValue 36) 5 [constValue 0, constValue 11]
      (constValue 1) (by decide) sampleHash_left_injective sampleHash_right_injective
      (by decide)).2.1 ⟨1, by decide⟩ (constValue 12) (by decide)⟩

/-- C8. Concatenation order follows the index parity: with one sibling `s`,
index 2 succeeds exactly for `root = Hash(leaf || s)` and index 3 exactly for
`root = Hash(s || leaf)`; when the two hashes differ, a root built with the
opposite convention is rejected with "root mismatch". -/
theorem C8_concatenation_order (H : Value → Value → Value) (root leaf s : Value) :
    (VerifyProof H root 2 [s] leaf = .ok () ↔ root = H leaf s) ∧
    (VerifyProof H root 3 [s] leaf = .ok () ↔ root = H s leaf) ∧
    (H leaf s ≠ H s leaf →
      VerifyProof H (H s leaf) 2 [s] leaf = .error .RootMismatch ∧
      VerifyProof H (H leaf s) 3 [s] leaf = .error .RootMismatch) := by
  have h2 : specFold H 2 0 [s] leaf = H leaf s := by
    simp [specFold, Nat.testBit_to_div_mod]
  have h3 : specFold H 3 0 [s] leaf = H s leaf := by
    simp [specFold, Nat.testBit_to_div_mod]
  refine ⟨?_, ?_, ?_⟩
  · rw [VerifyProof_ok_iff, h2]
    simp only [List.length_singleton]
    exact ⟨fun h => h.2.symm, fun h => ⟨⟨by norm_num, by norm_num⟩, h.symm⟩⟩
  · rw [VerifyProof_ok_iff, h3]
    simp only [List.length_singleton]
    exact ⟨fun h => h.2.symm, fun h => ⟨⟨by norm_num, by norm_num⟩, h.symm⟩⟩
  · intro hne
    constructor
    · rw [VerifyProof_mismatch_iff, h2]
      simp only [List.length_singleton]
      exact ⟨⟨by norm_num, by norm_num⟩, hne⟩
    · rw [VerifyProof_mismatch_iff, h3]
      simp only [List.length_singleton]
      exact ⟨⟨by norm_num, by norm_num⟩, fun h => hne h.symm⟩

/-- C8 with leaf `constValue 1` and sibling `constValue 2`, whose two hashes
differ. -/
theorem C8_concatenation_order_witness :
    sampleHash (constValue 1) (constValue 2) ≠ sampleHash (constValue 2) (constValue 1) ∧
    VerifyProof sampleHash (sampleHash (constValue 2) (constValue 1)) 2 [constValue 2]
      (constValue 1) = .error .RootMismatch ∧
    VerifyProof sampleHash (sampleHash (constValue 1) (constValue 2)) 3 [constValue 2]
      (constValue 1) = .error .RootMismatch :=
  ⟨by decide,
    (C8_concatenation_order sampleHash (constValue 0) (constValue 1) (constValue 2)).2.2
      (by decide)⟩

/-- The node reached by hashing a node with its sibling, on the side given by
the parity of its index, is the parent node. -/
theorem treeNode_parent (H : Value → Value → Value) (d : Nat) (leaves : Nat → Value)
    (h g : Nat) :
    (if g &&& 1 = 0 then
        H (treeNode H d leaves h g) (treeNode H d leaves h (siblingIndex g))
      else H (treeNode H d leaves h (siblingIndex g)) (treeNode H d leaves h g)) =
      treeNode H d leaves (h + 1) (g / 2) := by
  rw [Nat.and_one_is_mod]
  simp only [treeNode, siblingIndex]
  by_cases hg : g % 2 = 0
  · rw [if_pos hg, if_pos hg]
    have h1 : 2 * (g / 2) = g := by omega
    rw [h1]
  · rw [if_neg hg, if_neg hg]
    have h1 : 2 * (g / 2) = g - 1 := by omega
    have h2 : g - 1 + 1 = g := by omega
    rw [h1, h2]

/-- Running the loop on the siblings met while walking `k` levels up from node
`g` consumes them all and arrives at the ancestor of `g` with its value. -/
theorem verifyLoop_walkUp (H : Value → Value → Value) (d : Nat) (leaves : Nat → Value) :
    ∀ (k h g : Nat), 2 ^ k ≤ g →
      verifyLoop H g (walkUp H d leaves k h g) (treeNode H d leaves h g) =
        .ok (g / 2 ^ k, treeNode H d leaves (h + k) (g / 2 ^ k)) := by
  intro k
  induction k with
  | zero => intro h g _; simp [walkUp, verifyLoop]
  | succ k ih =>
    intro h g hg
    have hpos : 0 < 2 ^ k := Nat.pos_pow_of_pos _ (by norm_num)
    have hg2 : 2 ^ k ≤ g / 2 := by
      rw [Nat.le_div_iff_mul_le (by norm_num), ← pow_succ]; exact hg
    have hne : g >>> 1 ≠ 0 := by
      rw [Nat.shiftRight_eq_div_pow, pow_one]; omega
    simp only [walkUp, verifyLoop]
    rw [if_neg hne, treeNode_parent, Nat.shiftRight_eq_div_pow, pow_one, ih (h + 1) (g / 2) hg2,
      Nat.div_div_eq_div_mul, ← pow_succ']
    have hk : h + 1 + k = h + (k + 1) := by omega
    rw [hk]

/-- C1. Round-trip validity: in the perfect binary tree of depth `d` over the
leaves `leaves 0 .. leaves (2 ^ d - 1)`, whose inner nodes are
`Hash(left || right)`, for every leaf position `i < 2 ^ d` with
`2 ^ d + i < 2 ^ 64`, `VerifyProof` called with the tree root, the generalized
index `2 ^ d + i`, the siblings met while walking from leaf `i` up to the root
and leaf `i` returns `nil`, for any hash `H`. -/
theorem C1_round_trip (H : Value → Value → Value) (d : Nat) (leaves : Nat → Value) (i : Nat)
    (hi : i < 2 ^ d) (_hidx : 2 ^ d + i < 2 ^ 64) :
    VerifyProof H (treeRoot H d leaves) (2 ^ d + i) (treeBranch H d leaves i) (leaves i) =
      .ok () := by
  have hpos : 0 < 2 ^ d := Nat.pos_pow_of_pos _ (by norm_num)
  have hloop := verifyLoop_walkUp H d leaves d 0 (2 ^ d + i) (Nat.le_add_right _ _)
  have hleaf : treeNode H d leaves 0 (2 ^ d + i) = leaves i := by
    simp [treeNode]
  have hdiv : (2 ^ d + i) / 2 ^ d = 1 := by
    rw [div_pow_eq_one_iff, pow_succ]; omega
  rw [hleaf, hdiv, Nat.zero_add] at hloop
  unfold VerifyProof treeBranch
  rw [hloop]
  simp [treeRoot]

/-- C1 on leaf 5 of the tree of depth 3 whose leaf `i` is `constValue i`. -/
theorem C1_round_trip_witness :
    (5 : Nat) < 2 ^ 3 ∧ 2 ^ 3 + 5 < 2 ^ 64 ∧
    VerifyProof sampleHash (treeRoot sampleHash 3 (fun i => constValue (Fin.ofNat i))) (2 ^ 3 + 5)
      (treeBranch sampleHash 3 (fun i => constValue (Fin.ofNat i)) 5)
      ((fun i => constValue (Fin.ofNat i)) 5) = .ok () :=
  ⟨by decide, by decide,
    C1_round_trip sampleHash 3 (fun i => constValue (Fin.ofNat i)) 5 (by decide) (by decide)⟩

end Merkle

/-! ## Properties of the counter service -/

namespace Service

/-- The collection after `CreateNewCounter`: the generated identifier holds a
fresh counter at 0, every other identifier is as before. -/
theorem lookup_create (vmc : VirtualMonotonicCounter) (generated nonce id : Nat) :
    (CreateNewCounter vmc generated nonce).1.Counters.lookup id =
      if id = generated then some { CounterID := generated, Value := 0 }
      else vmc.Counters.lookup id := by
  simp only [CreateNewCounter]
  by_cases h : id = generated
  · rw [if_pos h, h, Finmap.lookup_insert]
  · rw [if_neg h, Finmap.lookup_insert_of_ne _ h]

/-- `ReadCounter` returns the service it was given. -/
theorem read_state (vmc : VirtualMonotonicCounter) (counterID nonce : Nat) :
    (ReadCounter vmc counterID nonce).1 = vmc := by
  unfold ReadCounter
  cases vmc.Counters.lookup counterID <;> rfl

/-- The collection after `IncrementCounter`: the addressed counter, when
present, has its value advanced modulo `2 ^ 64`; every other identifier is as
before. -/
theorem lookup_increment (vmc : VirtualMonotonicCounter) (counterID nonce id : Nat) :
    (IncrementCounter vmc counterID nonce).1.Counters.lookup id =
      if id = counterID then
        (vmc.Counters.lookup counterID).map
          (fun c => { c with Value := (c.Value + 1) % uint64Size })
      else vmc.Counters.lookup id := by
  unfold IncrementCounter
  cases hl : vmc.Counters.lookup counterID with
  | none =>
    by_cases h : id = counterID
    · rw [if_pos h, h]; simpa using hl
    · rw [if_neg h]
  | some c =>
    by_cases h : id = counterID
    · rw [if_pos h, h]; simp [Finmap.lookup_insert]
    · rw [if_neg h]; simp [Finmap.lookup_insert_of_ne _ h]

/-- The collection after `DestroyCounter`: the addressed identifier is absent,
every other identifier is as before. -/
theorem lookup_destroy (vmc : VirtualMonotonicCounter) (counterID nonce id : Nat) :
    (DestroyCounter vmc counterID nonce).1.Counters.lookup id =
      if id = counterID then none else vmc.Counters.lookup id := by
  unfold DestroyCounter
  cases hl : vmc.Counters.lookup counterID with
  | none =>
    by_cases h : id = counterID
    · rw [if_pos h, h]; simpa using hl
    · rw [if_neg h]
  | some c =>
    by_cases h : id = counterID
    · rw [if_pos h, h]; simp [Finmap.lookup_erase]
    · rw [if_neg h]; simp [Finmap.lookup_erase_ne h]

/-- In a reachable state every stored counter has a `uint64` value and carries
the identifier it is stored under. -/
theorem Reachable.counter_ok {vmc : VirtualMonotonicCounter} (hr : Reachable vmc) :
    ∀ (id : Nat) (c : Counter), vmc.Counters.lookup id = some c →
      c.Value < uint64Size ∧ c.CounterID = id := by
  induction hr with
  | empty =>
    intro id c h
    simp [emptyService, Finmap.lookup_empty] at h
  | step vmc op _ _ ih =>
    intro id c h
    cases op with
    | create generated nonce =>
      simp only [Service.step, lookup_create] at h
      by_cases hid : id = generated
      · rw [if_pos hid] at h
        injection h with h
        subst h
        exact ⟨by simp [uint64Size], hid.symm⟩
      · rw [if_neg hid] at h
        exact ih id c h
    | read counterID nonce =>
      simp only [Service.step, read_state] at h
      exact ih id c h
    | increment counterID nonce =>
      simp only [Service.step, lookup_increment] at h
      by_cases hid : id = counterID
      · rw [if_pos hid] at h
        cases hl : vmc.Counters.lookup counterID with
        | none => rw [hl] at h; simp at h
        | some c0 =>
          rw [hl] at h
          simp only [Option.map_some', Option.some.injEq] at h
          subst h
          refine ⟨Nat.mod_lt _ (by simp [uint64Size]), ?_⟩
          rw [hid]
          exact (ih counterID c0 hl).2
      · rw [if_neg hid] at h
        exact ih id c h
    | destroy counterID nonce =>
      simp only [Service.step, lookup_destroy] at h
      by_cases hid : id = counterID
      · rw [if_pos hid] at h; cases h
      · rw [if_neg hid] at h
        exact ih id c h

/-- Running calls with `uint64` arguments from a reachable state gives a
reachable state. -/
theorem Reachable.run {vmc : VirtualMonotonicCounter} (hr : Reachable vmc) (ops : List Op)
    (hops : ∀ op ∈ ops, op.InRange) : Reachable (Service.run vmc ops) := by
  induction ops generalizing vmc with
  | nil => exact hr
  | cons op ops ih =>
    simp only [Service.run]
    exact ih (Reachable.step vmc op hr (hops op (List.mem_cons_self _ _)))
      (fun o ho => hops o (List.mem_cons_of_mem _ ho))

/-- The state holding one counter at any `uint64` value is reachable: create
it and increment it that many times. -/
theorem reachable_single (counterID : Nat) (hid : counterID < uint64Size) :
    ∀ n : Nat, Reachable (single counterID (n % uint64Size)) := by
  intro n
  induction n with
  | zero =>
    have h := Reachable.step emptyService (.create counterID 0) Reachable.empty
      ⟨hid, by simp [uint64Size]⟩
    exact h
  | succ n ih =>
    have h := Reachable.step _ (.increment counterID 0) ih ⟨hid, by simp [uint64Size]⟩
    have he : (Service.step (single counterID (n % uint64Size)) (.increment counterID 0)).1 =
        single counterID ((n + 1) % uint64Size) := by
      simp only [Service.step, IncrementCounter, single, Finmap.lookup_insert,
        Finmap.insert_insert]
      congr 3
      unfold uint64Size
      omega
    rw [he] at h
    exact h

/-- C9, as stated, fails in two ways. After `CreateNewCounter` (identifier 7)
and `IncrementCounter(7)`, counter 7 is live with value 1; a further
`CreateNewCounter` that draws 7 again leaves it live with value 0. In the
reachable state where counter 7 has value `2 ^ 64 - 1`, `IncrementCounter(7)`
leaves it live with value 0. -/
theorem C9_counterexample :
    (Reachable (run emptyService [.create 7 0, .increment 7 0]) ∧
      (Op.create 7 0).InRange ∧
      (run emptyService [.create 7 0, .increment 7 0]).Counters.lookup 7 =
        some { CounterID := 7, Value := 1 } ∧
      (step (run emptyService [.create 7 0, .increment 7 0]) (.create 7 0)).1.Counters.lookup 7 =
        some { CounterID := 7, Value := 0 } ∧
      ¬ (1 ≤ 0)) ∧
    (Reachable (single 7 (2 ^ 64 - 1)) ∧
      (Op.increment 7 0).InRange ∧
      (single 7 (2 ^ 64 - 1)).Counters.lookup 7 =
        some { CounterID := 7, Value := 2 ^ 64 - 1 } ∧
      (step (single 7 (2 ^ 64 - 1)) (.increment 7 0)).1.Counters.lookup 7 =
        some { CounterID := 7, Value := 0 } ∧
      ¬ (2 ^ 64 - 1 ≤ 0)) :=
  ⟨⟨Reachable.run Reachable.empty [.create 7 0, .increment 7 0] (by decide), by decide,
      by decide, by decide, by decide⟩,
    ⟨reachable_single 7 (by decide) (2 ^ 64 - 1), by decide, by decide, by decide, by decide⟩⟩

/-- Exactly when a counter that stays live keeps or raises its value: always,
except when a `CreateNewCounter` draws its identifier while its value is
positive, or an `IncrementCounter` addresses it while its value is
`2 ^ 64 - 1`. -/
theorem value_le_iff (vmc : VirtualMonotonicCounter) (hr : Reachable vmc) (op : Op)
    (id : Nat) (before after : Counter)
    (hbefore : vmc.Counters.lookup id = some before)
    (hafter : (step vmc op).1.Counters.lookup id = some after) :
    before.Value ≤ after.Value ↔
      ¬ ((∃ nonce, op = .create id nonce ∧ 0 < before.Value) ∨
        (∃ nonce, op = .increment id nonce ∧ before.Value = uint64Size - 1)) := by
  have hlt : before.Value < uint64Size := (hr.counter_ok id before hbefore).1
  cases op with
  | create generated nonce =>
    simp only [step, lookup_create] at hafter
    by_cases hid : id = generated
    · rw [if_pos hid] at hafter
      injection hafter with hafter
      subst hafter
      subst hid
      simp
    · rw [if_neg hid, hbefore] at hafter
      injection hafter with hafter
      subst hafter
      have hne : ¬ generated = id := fun h => hid h.symm
      simp [hne]
  | read counterID nonce =>
    simp only [step, read_state, hbefore] at hafter
    injection hafter with hafter
    subst hafter
    simp
  | increment counterID nonce =>
    simp only [step, lookup_increment] at hafter
    by_cases hid : id = counterID
    · subst hid
      rw [if_pos rfl, hbefore] at hafter
      simp only [Option.map_some', Option.some.injEq] at hafter
      subst hafter
      simp only [reduceCtorEq, false_and, exists_false, Op.increment.injEq, true_and,
        exists_and_right, exists_eq', false_or]
      unfold uint64Size at hlt ⊢
      omega
    · rw [if_neg hid, hbefore] at hafter
      injection hafter with hafter
      subst hafter
      have hne : ¬ counterID = id := fun h => hid h.symm
      simp [hne]
  | destroy counterID nonce =>
    simp only [step, lookup_destroy] at hafter
    by_cases hid : id = counterID
    · rw [if_pos hid] at hafter; cases hafter
    · rw [if_neg hid, hbefore] at hafter
      injection hafter with hafter
      subst hafter
      simp

/-- C9, amended. In every reachable state and for every operation, a
`CounterID` that is live both before and after the operation has a value after
that is at least its value before, provided the operation is not a
`CreateNewCounter` that draws this identifier while its value is positive, and
not an `IncrementCounter` of this counter while its value is `2 ^ 64 - 1`. -/
theorem C9_value_never_decreases (vmc : VirtualMonotonicCounter) (hr : Reachable vmc) (op : Op)
    (id : Nat) (before after : Counter)
    (hbefore : vmc.Counters.lookup id = some before)
    (hafter : (step vmc op).1.Counters.lookup id = some after)
    (hcreate : ∀ nonce, op = .create id nonce → before.Value = 0)
    (hincrement : ∀ nonce, op = .increment id nonce → before.Value ≠ uint64Size - 1) :
    before.Value ≤ after.Value := by
  rw [value_le_iff vmc hr op id before after hbefore hafter]
  rintro (⟨nonce, hop, hpos⟩ | ⟨nonce, hop, hmax⟩)
  · have := hcreate nonce hop
    omega
  · exact hincrement nonce hop hmax

/-- C9, amended, on counter 7 at value 1 incremented once more. -/
theorem C9_value_never_decreases_witness :
    Reachable (run emptyService [.create 7 0, .increment 7 0]) ∧
    (run emptyService [.create 7 0, .increment 7 0]).Counters.lookup 7 =
      some { CounterID := 7, Value := 1 } ∧
    (step (run emptyService [.create 7 0, .increment 7 0]) (.increment 7 3)).1.Counters.lookup 7 =
      some { CounterID := 7, Value := 2 } ∧
    (∀ nonce, Op.increment 7 3 = .create 7 nonce → (1 : Nat) = 0) ∧
    (∀ nonce, Op.increment 7 3 = .increment 7 nonce → (1 : Nat) ≠ uint64Size - 1) ∧
    (1 : Nat) ≤ 2 :=
  ⟨Reachable.run Reachable.empty [.create 7 0, .increment 7 0] (by decide), by decide, by decide,
    (fun _ h => by cases h), (fun _ _ => by decide),
    C9_value_never_decreases (run emptyService [.create 7 0, .increment 7 0])
      (Reachable.run Reachable.empty [.create 7 0, .increment 7 0] (by decide))
      (.increment 7 3) 7 { CounterID := 7, Value := 1 } { CounterID := 7, Value := 2 }
      (by decide) (by decide) (fun _ h => by cases h) (fun _ _ => by decide)⟩

/-- C10. Not-found exactly when absent, with no state change: each of
`ReadCounter`, `IncrementCounter` and `DestroyCounter` returns `nil` if and
only if `counterID` is not a key of the collection, and then leaves the
collection unchanged; when `counterID` is present a certificate is returned,
so a counter at value 0 is answered with a certificate, and an absent counter
is never answered with a zero-valued certificate. -/
theorem C10_not_found_iff_absent (vmc : VirtualMonotonicCounter) (counterID nonce : Nat) :
    ((ReadCounter vmc counterID nonce).2 = none ↔ counterID ∉ vmc.Counters) ∧
    ((IncrementCounter vmc counterID nonce).2 = none ↔ counterID ∉ vmc.Counters) ∧
    ((DestroyCounter vmc counterID nonce).2 = none ↔ counterID ∉ vmc.Counters) ∧
    (counterID ∉ vmc.Counters →
      (ReadCounter vmc counterID nonce).1 = vmc ∧
      (IncrementCounter vmc counterID nonce).1 = vmc ∧
      (DestroyCounter vmc counterID nonce).1 = vmc) ∧
    (counterID ∈ vmc.Counters →
      (∃ cert, (ReadCounter vmc counterID nonce).2 = some cert) ∧
      (∃ cert, (IncrementCounter vmc counterID nonce).2 = some cert) ∧
      (∃ cert, (DestroyCounter vmc counterID nonce).2 = some cert)) ∧
    (∀ c : Counter, vmc.Counters.lookup counterID = some c → c.Value = 0 →
      (ReadCounter vmc counterID nonce).2 =
        some { CounterID := c.CounterID, Value := 0, Nonce := nonce }) ∧
    (counterID ∉ vmc.Counters → ∀ cert : Certificate, cert.Value = 0 →
      (ReadCounter vmc counterID nonce).2 ≠ some cert ∧
      (IncrementCounter vmc counterID nonce).2 ≠ some cert ∧
      (DestroyCounter vmc counterID nonce).2 ≠ some cert) := by
  rw [← Finmap.lookup_eq_none]
  cases hl : vmc.Counters.lookup counterID with
  | none =>
    have hmem : counterID ∉ vmc.Counters := Finmap.lookup_eq_none.1 hl
    simp [ReadCounter, IncrementCounter, DestroyCounter, hl, hmem]
  | some c =>
    have hmem : counterID ∈ vmc.Counters := Finmap.mem_of_lookup_eq_some hl
    simp [ReadCounter, IncrementCounter, DestroyCounter, hl, hmem]

/-- C10 on the service holding counter 7 at value 0: identifier 7 is answered
with a certificate, identifier 8 is not found and nothing changes. -/
theorem C10_not_found_iff_absent_witness :
    (8 ∉ (single 7 0).Counters ∧
      (ReadCounter (single 7 0) 8 5).1 = single 7 0 ∧
      (IncrementCounter (single 7 0) 8 5).1 = single 7 0 ∧
      (DestroyCounter (single 7 0) 8 5).1 = single 7 0) ∧
    (7 ∈ (single 7 0).Counters ∧
      (single 7 0).Counters.lookup 7 = some { CounterID := 7, Value := 0 } ∧
      (ReadCounter (single 7 0) 7 5).2 = some { CounterID := 7, Value := 0, Nonce := 5 }) :=
  ⟨⟨by decide, (C10_not_found_iff_absent (single 7 0) 8 5).2.2.2.1 (by decide)⟩,
    ⟨by decide, by decide,
      (C10_not_found_iff_absent (single 7 0) 7 5).2.2.2.2.2.1 { CounterID := 7, Value := 0 }
        (by decide) rfl⟩⟩

end Service

namespace Service

/-- The result of `ReadCounter`: the stored counter's fields and the nonce. -/
theorem read_cert (vmc : VirtualMonotonicCounter) (counterID nonce : Nat) :
    (ReadCounter vmc counterID nonce).2 =
      (vmc.Counters.lookup counterID).map
        (fun c => { CounterID := c.CounterID, Value := c.Value, Nonce := nonce }) := by
  unfold ReadCounter
  cases vmc.Counters.lookup counterID <;> rfl

/-- The result of `IncrementCounter`: the stored identifier, the advanced value
and the nonce. -/
theorem increment_cert (vmc : VirtualMonotonicCounter) (counterID nonce : Nat) :
    (IncrementCounter vmc counterID nonce).2 =
      (vmc.Counters.lookup counterID).map
        (fun c => { CounterID := c.CounterID, Value := (c.Value + 1) % uint64Size,
                    Nonce := nonce }) := by
  unfold IncrementCounter
  cases vmc.Counters.lookup counterID <;> rfl

/-- The result of `DestroyCounter`: the stored identifier, value 0 and the nonce. -/
theorem destroy_cert (vmc : VirtualMonotonicCounter) (counterID nonce : Nat) :
    (DestroyCounter vmc counterID nonce).2 =
      (vmc.Counters.lookup counterID).map
        (fun c => { CounterID := c.CounterID, Value := 0, Nonce := nonce }) := by
  unfold DestroyCounter
  cases vmc.Counters.lookup counterID <;> rfl

/-- The key set after `DestroyCounter` is the old key set without `counterID`. -/
theorem keys_destroy (vmc : VirtualMonotonicCounter) (counterID nonce : Nat) :
    (DestroyCounter vmc counterID nonce).1.Counters.keys = vmc.Counters.keys.erase counterID := by
  unfold DestroyCounter
  cases hl : vmc.Counters.lookup counterID with
  | none =>
    have hmem : counterID ∉ vmc.Counters.keys := by
      rw [Finmap.mem_keys]; exact Finmap.lookup_eq_none.1 hl
    simp only
    rw [Finset.erase_eq_of_not_mem hmem]
  | some c => simp only [Finmap.keys_erase]

/-- The key set after `CreateNewCounter` is the old key set with the generated
identifier added. -/
theorem keys_create (vmc : VirtualMonotonicCounter) (generated nonce : Nat) :
    (CreateNewCounter vmc generated nonce).1.Counters.keys =
      insert generated vmc.Counters.keys := by
  ext k
  simp only [CreateNewCounter, Finmap.mem_keys, Finmap.mem_insert, Finset.mem_insert]

/-- C11. `IncrementCounter` on a present counter: in every reachable state in
which `counterID` is live with value `v`, the call stores `(v + 1) mod 2 ^ 64`
as its value and returns `Certificate{counterID, (v + 1) mod 2 ^ 64, nonce}`;
for `v < 2 ^ 64 - 1` that value is `v + 1`, for `v = 2 ^ 64 - 1` it is 0. -/
theorem C11_increment_present (vmc : VirtualMonotonicCounter) (hr : Reachable vmc)
    (counterID nonce : Nat) (c : Counter) (hlive : vmc.Counters.lookup counterID = some c) :
    (IncrementCounter vmc counterID nonce).1.Counters.lookup counterID =
      some { CounterID := counterID, Value := (c.Value + 1) % uint64Size } ∧
    (IncrementCounter vmc counterID nonce).2 =
      some { CounterID := counterID, Value := (c.Value + 1) % uint64Size, Nonce := nonce } ∧
    (c.Value < 2 ^ 64 - 1 → (c.Value + 1) % uint64Size = c.Value + 1) ∧
    (c.Value = 2 ^ 64 - 1 → (c.Value + 1) % uint64Size = 0) := by
  have hid : c.CounterID = counterID := (hr.counter_ok counterID c hlive).2
  refine ⟨?_, ?_, ?_, ?_⟩
  · rw [lookup_increment, if_pos rfl, hlive, Option.map_some', hid]
  · rw [increment_cert, hlive, Option.map_some', hid]
  · intro hv; unfold uint64Size; omega
  · intro hv; unfold uint64Size; omega

/-- C11 on counter 7 at value 1, and on counter 7 at value `2 ^ 64 - 1`. -/
theorem C11_increment_present_witness :
    (Reachable (single 7 1) ∧
      (single 7 1).Counters.lookup 7 = some { CounterID := 7, Value := 1 } ∧
      (IncrementCounter (single 7 1) 7 9).2 = some { CounterID := 7, Value := 2, Nonce := 9 }) ∧
    (Reachable (single 7 (2 ^ 64 - 1)) ∧
      (single 7 (2 ^ 64 - 1)).Counters.lookup 7 = some { CounterID := 7, Value := 2 ^ 64 - 1 } ∧
      (IncrementCounter (single 7 (2 ^ 64 - 1)) 7 9).2 =
        some { CounterID := 7, Value := 0, Nonce := 9 }) :=
  ⟨⟨reachable_single 7 (by decide) 1, by decide,
      (C11_increment_present (single 7 1) (reachable_single 7 (by decide) 1) 7 9
        { CounterID := 7, Value := 1 } (by decide)).2.1⟩,
    ⟨reachable_single 7 (by decide) (2 ^ 64 - 1), by decide,
      (C11_increment_present (single 7 (2 ^ 64 - 1))
        (reachable_single 7 (by decide) (2 ^ 64 - 1)) 7 9
        { CounterID := 7, Value := 2 ^ 64 - 1 } (by decide)).2.1⟩⟩

/-- C12. `CreateNewCounter` postcondition: with generated identifier `g` the
call returns `Certificate{g, 0, nonce}`, afterwards `g` is live with value 0,
and a following `ReadCounter(g, m)` returns `Certificate{g, 0, m}`. -/
theorem C12_create_postcondition (vmc : VirtualMonotonicCounter) (g nonce m : Nat) :
    (CreateNewCounter vmc g nonce).2 = { CounterID := g, Value := 0, Nonce := nonce } ∧
    g ∈ (CreateNewCounter vmc g nonce).1.Counters ∧
    (CreateNewCounter vmc g nonce).1.Counters.lookup g = some { CounterID := g, Value := 0 } ∧
    (ReadCounter (CreateNewCounter vmc g nonce).1 g m).2 =
      some { CounterID := g, Value := 0, Nonce := m } := by
  have hl : (CreateNewCounter vmc g nonce).1.Counters.lookup g =
      some { CounterID := g, Value := 0 } := by
    rw [lookup_create, if_pos rfl]
  refine ⟨rfl, Finmap.mem_of_lookup_eq_some hl, hl, ?_⟩
  rw [read_cert, hl, Option.map_some']

end Service

namespace Service

/-- C13. `DestroyCounter` on a present counter: in every reachable state in
which `counterID` is live, with any value, the call removes `counterID` from
the collection (the key set becomes the old key set without `counterID`) and
returns `Certificate{counterID, 0, nonce}`, whatever the value was. -/
theorem C13_destroy_present (vmc : VirtualMonotonicCounter) (hr : Reachable vmc)
    (counterID nonce : Nat) (c : Counter) (hlive : vmc.Counters.lookup counterID = some c) :
    counterID ∉ (DestroyCounter vmc counterID nonce).1.Counters ∧
    (DestroyCounter vmc counterID nonce).1.Counters.keys = vmc.Counters.keys.erase counterID ∧
    (DestroyCounter vmc counterID nonce).2 =
      some { CounterID := counterID, Value := 0, Nonce := nonce } := by
  have hid : c.CounterID = counterID := (hr.counter_ok counterID c hlive).2
  refine ⟨?_, keys_destroy vmc counterID nonce, ?_⟩
  · rw [← Finmap.lookup_eq_none, lookup_destroy, if_pos rfl]
  · rw [destroy_cert, hlive, Option.map_some', hid]

/-- C13 on counter 7 at value 2. -/
theorem C13_destroy_present_witness :
    Reachable (single 7 2) ∧
    (single 7 2).Counters.lookup 7 = some { CounterID := 7, Value := 2 } ∧
    7 ∉ (DestroyCounter (single 7 2) 7 1).1.Counters ∧
    (DestroyCounter (single 7 2) 7 1).1.Counters.keys = (single 7 2).Counters.keys.erase 7 ∧
    (DestroyCounter (single 7 2) 7 1).2 = some { CounterID := 7, Value := 0, Nonce := 1 } :=
  ⟨reachable_single 7 (by decide) 2, by decide,
    C13_destroy_present (single 7 2) (reachable_single 7 (by decide) 2) 7 1
      { CounterID := 7, Value := 2 } (by decide)⟩

/-- C14. `ReadCounter` is read-only: it leaves the collection unchanged; in a
reachable state in which `counterID` is live with value `v` it returns
`Certificate{counterID, v, nonce}`; and a second read of the same counter
returns the same value as the first. -/
theorem C14_read_only (vmc : VirtualMonotonicCounter) (counterID nonce nonce2 : Nat) :
    (ReadCounter vmc counterID nonce).1 = vmc ∧
    (Reachable vmc → ∀ c : Counter, vmc.Counters.lookup counterID = some c →
      (ReadCounter vmc counterID nonce).2 =
        some { CounterID := counterID, Value := c.Value, Nonce := nonce }) ∧
    ((ReadCounter (ReadCounter vmc counterID nonce).1 counterID nonce2).2.map
        (fun cert => cert.Value) =
      (ReadCounter vmc counterID nonce).2.map (fun cert => cert.Value)) := by
  refine ⟨read_state vmc counterID nonce, ?_, ?_⟩
  · intro hr c hlive
    rw [read_cert, hlive, Option.map_some', (hr.counter_ok counterID c hlive).2]
  · rw [read_state, read_cert, read_cert]
    cases vmc.Counters.lookup counterID <;> rfl

/-- C14 on counter 7 at value 2. -/
theorem C14_read_only_witness :
    Reachable (single 7 2) ∧
    (single 7 2).Counters.lookup 7 = some { CounterID := 7, Value := 2 } ∧
    (ReadCounter (single 7 2) 7 5).2 = some { CounterID := 7, Value := 2, Nonce := 5 } :=
  ⟨reachable_single 7 (by decide) 2, by decide,
    (C14_read_only (single 7 2) 7 5 6).2.1 (reachable_single 7 (by decide) 2)
      { CounterID := 7, Value := 2 } (by decide)⟩

/-- C15. Identity isolation: for two distinct identifiers `a` and `b`,
`ReadCounter`, `IncrementCounter` and `DestroyCounter` addressed to `a`, and
`CreateNewCounter` drawing `a`, leave the entry of `b` as it was: `b` is live
after the call exactly when it was before, with the same value. -/
theorem C15_identity_isolation (vmc : VirtualMonotonicCounter) (a b nonce : Nat) (hab : a ≠ b) :
    (ReadCounter vmc a nonce).1.Counters.lookup b = vmc.Counters.lookup b ∧
    (IncrementCounter vmc a nonce).1.Counters.lookup b = vmc.Counters.lookup b ∧
    (DestroyCounter vmc a nonce).1.Counters.lookup b = vmc.Counters.lookup b ∧
    (CreateNewCounter vmc a nonce).1.Counters.lookup b = vmc.Counters.lookup b ∧
    ((b ∈ (ReadCounter vmc a nonce).1.Counters ↔ b ∈ vmc.Counters) ∧
      (b ∈ (IncrementCounter vmc a nonce).1.Counters ↔ b ∈ vmc.Counters) ∧
      (b ∈ (DestroyCounter vmc a nonce).1.Counters ↔ b ∈ vmc.Counters) ∧
      (b ∈ (CreateNewCounter vmc a nonce).1.Counters ↔ b ∈ vmc.Counters)) := by
  have hba : ¬ b = a := fun h => hab h.symm
  have h1 : (ReadCounter vmc a nonce).1.Counters.lookup b = vmc.Counters.lookup b := by
    rw [read_state]
  have h2 : (IncrementCounter vmc a nonce).1.Counters.lookup b = vmc.Counters.lookup b := by
    rw [lookup_increment, if_neg hba]
  have h3 : (DestroyCounter vmc a nonce).1.Counters.lookup b = vmc.Counters.lookup b := by
    rw [lookup_destroy, if_neg hba]
  have h4 : (CreateNewCounter vmc a nonce).1.Counters.lookup b = vmc.Counters.lookup b := by
    rw [lookup_create, if_neg hba]
  refine ⟨h1, h2, h3, h4, ?_, ?_, ?_, ?_⟩
  · rw [← Finmap.lookup_isSome, ← Finmap.lookup_isSome, h1]
  · rw [← Finmap.lookup_isSome, ← Finmap.lookup_isSome, h2]
  · rw [← Finmap.lookup_isSome, ← Finmap.lookup_isSome, h3]
  · rw [← Finmap.lookup_isSome, ← Finmap.lookup_isSome, h4]

/-- C15 with the calls addressed to 7 and the bystander 8 at value 3. -/
theorem C15_identity_isolation_witness :
    (7 : Nat) ≠ 8 ∧
    (run emptyService [.create 7 0, .create 8 0, .increment 8 0, .increment 8 0,
      .increment 8 0]).Counters.lookup 8 = some { CounterID := 8, Value := 3 } ∧
    (IncrementCounter (run emptyService [.create 7 0, .create 8 0, .increment 8 0,
      .increment 8 0, .increment 8 0]) 7 4).1.Counters.lookup 8 =
      (run emptyService [.create 7 0, .create 8 0, .increment 8 0, .increment 8 0,
        .increment 8 0]).Counters.lookup 8 :=
  ⟨by decide, by decide,
    (C15_identity_isolation (run emptyService [.create 7 0, .create 8 0, .increment 8 0,
      .increment 8 0, .increment 8 0]) 7 8 4 (by decide)).2.1⟩

end Service

namespace Service

/-- A call that is not a `CreateNewCounter` drawing `id` keeps an absent `id`
absent. -/
theorem absent_step (vmc : VirtualMonotonicCounter) (id : Nat) (op : Op)
    (habs : vmc.Counters.lookup id = none) (hop : op.NotCreateOf id) :
    (step vmc op).1.Counters.lookup id = none := by
  cases op with
  | create generated nonce =>
    have hne : ¬ id = generated := fun h => hop h.symm
    simp only [step, lookup_create, if_neg hne, habs]
  | read counterID nonce => simp only [step, read_state, habs]
  | increment counterID nonce =>
    simp only [step, lookup_increment]
    by_cases h : id = counterID
    · rw [if_pos h, ← h, habs, Option.map_none']
    · rw [if_neg h, habs]
  | destroy counterID nonce =>
    simp only [step, lookup_destroy]
    by_cases h : id = counterID
    · rw [if_pos h]
    · rw [if_neg h, habs]

/-- A sequence of calls none of which is a `CreateNewCounter` drawing `id` keeps
an absent `id` absent. -/
theorem absent_run (id : Nat) (ops : List Op) :
    ∀ (vmc : VirtualMonotonicCounter), vmc.Counters.lookup id = none →
      (∀ op ∈ ops, op.NotCreateOf id) → (run vmc ops).Counters.lookup id = none := by
  induction ops with
  | nil => intro vmc habs _; exact habs
  | cons op ops ih =>
    intro vmc habs hops
    simp only [run]
    exact ih (step vmc op).1 (absent_step vmc id op habs (hops op (List.mem_cons_self _ _)))
      (fun o ho => hops o (List.mem_cons_of_mem _ ho))

/-- `IncrementCounter` addressed to an absent identifier returns the service it
was given. -/
theorem increment_state_absent (vmc : VirtualMonotonicCounter) (id nonce : Nat)
    (habs : vmc.Counters.lookup id = none) : (IncrementCounter vmc id nonce).1 = vmc := by
  unfold IncrementCounter
  rw [habs]

/-- `DestroyCounter` addressed to an absent identifier returns the service it
was given. -/
theorem destroy_state_absent (vmc : VirtualMonotonicCounter) (id nonce : Nat)
    (habs : vmc.Counters.lookup id = none) : (DestroyCounter vmc id nonce).1 = vmc := by
  unfold DestroyCounter
  rw [habs]

/-- C16. Destroyed is terminal: after a successful `DestroyCounter(x, n)`, and
after any further sequence of calls in which no `CreateNewCounter` draws `x`,
`x` is not live, `ReadCounter`, `IncrementCounter` and `DestroyCounter`
addressed to `x` return `nil`, and they leave the service unchanged. -/
theorem C16_destroyed_is_terminal (vmc : VirtualMonotonicCounter) (x n : Nat)
    (cert : Certificate) (_hok : (DestroyCounter vmc x n).2 = some cert)
    (ops : List Op) (hops : ∀ op ∈ ops, op.NotCreateOf x) (m : Nat) :
    x ∉ (run (DestroyCounter vmc x n).1 ops).Counters ∧
    (ReadCounter (run (DestroyCounter vmc x n).1 ops) x m).2 = none ∧
    (IncrementCounter (run (DestroyCounter vmc x n).1 ops) x m).2 = none ∧
    (DestroyCounter (run (DestroyCounter vmc x n).1 ops) x m).2 = none ∧
    (ReadCounter (run (DestroyCounter vmc x n).1 ops) x m).1 =
      run (DestroyCounter vmc x n).1 ops ∧
    (IncrementCounter (run (DestroyCounter vmc x n).1 ops) x m).1 =
      run (DestroyCounter vmc x n).1 ops ∧
    (DestroyCounter (run (DestroyCounter vmc x n).1 ops) x m).1 =
      run (DestroyCounter vmc x n).1 ops := by
  have h0 : (DestroyCounter vmc x n).1.Counters.lookup x = none := by
    rw [lookup_destroy, if_pos rfl]
  have habs := absent_run x ops (DestroyCounter vmc x n).1 h0 hops
  refine ⟨Finmap.lookup_eq_none.1 habs, ?_, ?_, ?_, read_state _ _ _,
    increment_state_absent _ x m habs, destroy_state_absent _ x m habs⟩
  · rw [read_cert, habs, Option.map_none']
  · rw [increment_cert, habs, Option.map_none']
  · rw [destroy_cert, habs, Option.map_none']

/-- C16 on counter 7 destroyed at value 1, followed by calls on 7 and on 8. -/
theorem C16_destroyed_is_terminal_witness :
    (DestroyCounter (single 7 1) 7 2).2 = some { CounterID := 7, Value := 0, Nonce := 2 } ∧
    (∀ op ∈ [Op.read 7 0, Op.create 8 0, Op.increment 7 0, Op.increment 8 0, Op.destroy 7 0],
      op.NotCreateOf 7) ∧
    (ReadCounter (run (DestroyCounter (single 7 1) 7 2).1
      [Op.read 7 0, Op.create 8 0, Op.increment 7 0, Op.increment 8 0, Op.destroy 7 0]) 7 3).2 =
      none :=
  ⟨by decide, by decide,
    (C16_destroyed_is_terminal (single 7 1) 7 2 { CounterID := 7, Value := 0, Nonce := 2 }
      (by decide)
      [Op.read 7 0, Op.create 8 0, Op.increment 7 0, Op.increment 8 0, Op.destroy 7 0]
      (by decide) 3).2.1⟩

/-- Increments of a counter stored under its own identifier, as long as the
value stays below `2 ^ 64`: the certificates count up from the value after the
first increment, each with its own nonce, and the counter ends at the old value
plus the number of calls. -/
theorem incrementMany_spec (x : Nat) (nonces : List Nat) :
    ∀ (vmc : VirtualMonotonicCounter) (v : Nat),
      vmc.Counters.lookup x = some { CounterID := x, Value := v } →
      v + nonces.length < uint64Size →
      (incrementMany vmc x nonces).2 =
        (List.enumFrom (v + 1) nonces).map
          (fun p => some { CounterID := x, Value := p.1, Nonce := p.2 }) ∧
      (incrementMany vmc x nonces).1.Counters.lookup x =
        some { CounterID := x, Value := v + nonces.length } := by
  induction nonces with
  | nil => intro vmc v hl _; exact ⟨rfl, hl⟩
  | cons nonce nonces ih =>
    intro vmc v hl hlen
    rw [List.length_cons] at hlen
    have hmod : (v + 1) % uint64Size = v + 1 := Nat.mod_eq_of_lt (by omega)
    have hl1 : (IncrementCounter vmc x nonce).1.Counters.lookup x =
        some { CounterID := x, Value := v + 1 } := by
      rw [lookup_increment, if_pos rfl, hl, Option.map_some', hmod]
    have hc1 : (IncrementCounter vmc x nonce).2 =
        some { CounterID := x, Value := v + 1, Nonce := nonce } := by
      rw [increment_cert, hl, Option.map_some', hmod]
    obtain ⟨ih1, ih2⟩ := ih (IncrementCounter vmc x nonce).1 (v + 1) hl1 (by omega)
    simp only [incrementMany, List.enumFrom_cons, List.map_cons, List.length_cons]
    refine ⟨?_, ?_⟩
    · rw [hc1, ih1]
    · rw [ih2]
      congr 2
      omega

/-- C17. Counting from zero: after `CreateNewCounter` returns identifier `x`,
`k < 2 ^ 64` consecutive `IncrementCounter(x, n_j)` calls return certificates
with values 1, 2, ..., `k` in that order, each with `CounterID` `x` and its own
nonce, and a following `ReadCounter(x, m)` returns `Certificate{x, k, m}`. -/
theorem C17_counting_from_zero (vmc : VirtualMonotonicCounter) (x nonce : Nat)
    (nonces : List Nat) (m : Nat) (hk : nonces.length < 2 ^ 64) :
    (CreateNewCounter vmc x nonce).2.CounterID = x ∧
    (incrementMany (CreateNewCounter vmc x nonce).1 x nonces).2 =
      (List.enumFrom 1 nonces).map
        (fun p => some { CounterID := x, Value := p.1, Nonce := p.2 }) ∧
    (ReadCounter (incrementMany (CreateNewCounter vmc x nonce).1 x nonces).1 x m).2 =
      some { CounterID := x, Value := nonces.length, Nonce := m } := by
  have hl : (CreateNewCounter vmc x nonce).1.Counters.lookup x =
      some { CounterID := x, Value := 0 } := by
    rw [lookup_create, if_pos rfl]
  obtain ⟨h1, h2⟩ := incrementMany_spec x nonces (CreateNewCounter vmc x nonce).1 0 hl
    (by unfold uint64Size; omega)
  rw [Nat.zero_add] at h1 h2
  refine ⟨rfl, h1, ?_⟩
  rw [read_cert, h2, Option.map_some']

/-- C17 with three increments of a counter created on top of a live counter 8. -/
theorem C17_counting_from_zero_witness :
    [9, 4, 6].length < 2 ^ 64 ∧
    (incrementMany (CreateNewCounter (single 8 5) 7 1).1 7 [9, 4, 6]).2 =
      [some { CounterID := 7, Value := 1, Nonce := 9 },
        some { CounterID := 7, Value := 2, Nonce := 4 },
        some { CounterID := 7, Value := 3, Nonce := 6 }] ∧
    (ReadCounter (incrementMany (CreateNewCounter (single 8 5) 7 1).1 7 [9, 4, 6]).1 7 2).2 =
      some { CounterID := 7, Value := 3, Nonce := 2 } :=
  ⟨by decide,
    (C17_counting_from_zero (single 8 5) 7 1 [9, 4, 6] 2 (by decide)).2.1,
    (C17_counting_from_zero (single 8 5) 7 1 [9, 4, 6] 2 (by decide)).2.2⟩

end Service

namespace Service

/-- C18. The nonce is only echoed: running a call with nonce `n1` and with
nonce `n2` gives the same resulting collection and the same found or not-found
outcome, and the two certificates, when returned, agree on `CounterID` and
`Value` and carry `n1` and `n2` as their nonces. -/
theorem C18_nonce_only_echoed (vmc : VirtualMonotonicCounter) (op : Op) (n1 n2 : Nat) :
    (step vmc (op.withNonce n1)).1 = (step vmc (op.withNonce n2)).1 ∧
    ((step vmc (op.withNonce n1)).2 = none ↔ (step vmc (op.withNonce n2)).2 = none) ∧
    (∀ c1 c2 : Certificate, (step vmc (op.withNonce n1)).2 = some c1 →
      (step vmc (op.withNonce n2)).2 = some c2 →
      c1.CounterID = c2.CounterID ∧ c1.Value = c2.Value ∧ c1.Nonce = n1 ∧ c2.Nonce = n2) := by
  cases op with
  | create generated nonce =>
    refine ⟨rfl, by simp [step, Op.withNonce], ?_⟩
    intro c1 c2 h1 h2
    simp only [step, Op.withNonce, CreateNewCounter, Option.some.injEq] at h1 h2
    subst h1; subst h2
    exact ⟨rfl, rfl, rfl, rfl⟩
  | read counterID nonce =>
    simp only [step, Op.withNonce, read_state, read_cert]
    cases vmc.Counters.lookup counterID with
    | none => simp
    | some c =>
      refine ⟨trivial, by simp, ?_⟩
      intro c1 c2 h1 h2
      simp only [Option.map_some', Option.some.injEq] at h1 h2
      subst h1; subst h2
      exact ⟨rfl, rfl, rfl, rfl⟩
  | increment counterID nonce =>
    simp only [step, Op.withNonce, increment_cert]
    refine ⟨?_, ?_⟩
    · unfold IncrementCounter
      cases vmc.Counters.lookup counterID <;> rfl
    · cases vmc.Counters.lookup counterID with
      | none => simp
      | some c =>
        refine ⟨by simp, ?_⟩
        intro c1 c2 h1 h2
        simp only [Option.map_some', Option.some.injEq] at h1 h2
        subst h1; subst h2
        exact ⟨rfl, rfl, rfl, rfl⟩
  | destroy counterID nonce =>
    simp only [step, Op.withNonce, destroy_cert]
    refine ⟨?_, ?_⟩
    · unfold DestroyCounter
      cases vmc.Counters.lookup counterID <;> rfl
    · cases vmc.Counters.lookup counterID with
      | none => simp
      | some c =>
        refine ⟨by simp, ?_⟩
        intro c1 c2 h1 h2
        simp only [Option.map_some', Option.some.injEq] at h1 h2
        subst h1; subst h2
        exact ⟨rfl, rfl, rfl, rfl⟩

/-- C18 on an increment of counter 7 at value 2, with nonces 3 and 4. -/
theorem C18_nonce_only_echoed_witness :
    (step (single 7 2) ((Op.increment 7 0).withNonce 3)).2 =
      some { CounterID := 7, Value := 3, Nonce := 3 } ∧
    (step (single 7 2) ((Op.increment 7 0).withNonce 4)).2 =
      some { CounterID := 7, Value := 3, Nonce := 4 } ∧
    ((7 : Nat) = 7 ∧ (3 : Nat) = 3 ∧ (3 : Nat) = 3 ∧ (4 : Nat) = 4) :=
  ⟨by decide, by decide,
    (C18_nonce_only_echoed (single 7 2) (.increment 7 0) 3 4).2.2
      { CounterID := 7, Value := 3, Nonce := 3 } { CounterID := 7, Value := 3, Nonce := 4 }
      (by decide) (by decide)⟩

/-- C19. Key and identity agree: in every reachable state every key of the
collection maps to a counter whose `CounterID` is that key, so no two live
counters share a `CounterID`; hence every certificate returned by
`ReadCounter`, `IncrementCounter` or `DestroyCounter`, which copies the stored
`CounterID`, carries the identifier that was requested. -/
theorem C19_key_identity (vmc : VirtualMonotonicCounter) (hr : Reachable vmc) :
    (∀ (k : Nat) (c : Counter), vmc.Counters.lookup k = some c → c.CounterID = k) ∧
    (∀ (k1 k2 : Nat) (c1 c2 : Counter), vmc.Counters.lookup k1 = some c1 →
      vmc.Counters.lookup k2 = some c2 → c1.CounterID = c2.CounterID → k1 = k2) ∧
    (∀ (counterID nonce : Nat) (cert : Certificate),
      (ReadCounter vmc counterID nonce).2 = some cert → cert.CounterID = counterID) ∧
    (∀ (counterID nonce : Nat) (cert : Certificate),
      (IncrementCounter vmc counterID nonce).2 = some cert → cert.CounterID = counterID) ∧
    (∀ (counterID nonce : Nat) (cert : Certificate),
      (DestroyCounter vmc counterID nonce).2 = some cert → cert.CounterID = counterID) := by
  have hkey : ∀ (k : Nat) (c : Counter), vmc.Counters.lookup k = some c → c.CounterID = k :=
    fun k c h => (hr.counter_ok k c h).2
  refine ⟨hkey, ?_, ?_, ?_, ?_⟩
  · intro k1 k2 c1 c2 h1 h2 h
    rw [← hkey k1 c1 h1, ← hkey k2 c2 h2, h]
  · intro counterID nonce cert h
    rw [read_cert] at h
    cases hl : vmc.Counters.lookup counterID with
    | none => rw [hl] at h; cases h
    | some c =>
      rw [hl, Option.map_some', Option.some.injEq] at h
      rw [← h]; exact hkey counterID c hl
  · intro counterID nonce cert h
    rw [increment_cert] at h
    cases hl : vmc.Counters.lookup counterID with
    | none => rw [hl] at h; cases h
    | some c =>
      rw [hl, Option.map_some', Option.some.injEq] at h
      rw [← h]; exact hkey counterID c hl
  · intro counterID nonce cert h
    rw [destroy_cert] at h
    cases hl : vmc.Counters.lookup counterID with
    | none => rw [hl] at h; cases h
    | some c =>
      rw [hl, Option.map_some', Option.some.injEq] at h
      rw [← h]; exact hkey counterID c hl

/-- C19 on the state reached by creating 7 and 8 and incrementing 8. -/
theorem C19_key_identity_witness :
    Reachable (run emptyService [.create 7 0, .create 8 0, .increment 8 0]) ∧
    (run emptyService [.create 7 0, .create 8 0, .increment 8 0]).Counters.lookup 8 =
      some { CounterID := 8, Value := 1 } ∧
    ({ CounterID := 8, Value := 1 } : Counter).CounterID = 8 ∧
    (ReadCounter (run emptyService [.create 7 0, .create 8 0, .increment 8 0]) 8 5).2 =
      some { CounterID := 8, Value := 1, Nonce := 5 } ∧
    ({ CounterID := 8, Value := 1, Nonce := 5 } : Certificate).CounterID = 8 :=
  ⟨Reachable.run Reachable.empty [.create 7 0, .create 8 0, .increment 8 0] (by decide),
    by decide,
    (C19_key_identity (run emptyService [.create 7 0, .create 8 0, .increment 8 0])
      (Reachable.run Reachable.empty [.create 7 0, .create 8 0, .increment 8 0]
        (by decide))).1 8 { CounterID := 8, Value := 1 } (by decide),
    by decide,
    (C19_key_identity (run emptyService [.create 7 0, .create 8 0, .increment 8 0])
      (Reachable.run Reachable.empty [.create 7 0, .create 8 0, .increment 8 0]
        (by decide))).2.2.1 8 5 { CounterID := 8, Value := 1, Nonce := 5 } (by decide)⟩

/-- C20. Identifier collision is not checked: when the generated identifier `g`
is already live, with any value, `CreateNewCounter` still returns
`Certificate{g, 0, nonce}`, leaves `g` live with value 0 and leaves the number
of live counters unchanged; the number of live counters grows by one exactly
when `g` was not live. -/
theorem C20_collision_not_checked (vmc : VirtualMonotonicCounter) (g nonce : Nat) :
    (∀ c : Counter, vmc.Counters.lookup g = some c →
      (CreateNewCounter vmc g nonce).2 = { CounterID := g, Value := 0, Nonce := nonce } ∧
      (CreateNewCounter vmc g nonce).1.Counters.lookup g =
        some { CounterID := g, Value := 0 } ∧
      liveCount (CreateNewCounter vmc g nonce).1 = liveCount vmc) ∧
    (g ∉ vmc.Counters → liveCount (CreateNewCounter vmc g nonce).1 = liveCount vmc + 1) ∧
    (liveCount (CreateNewCounter vmc g nonce).1 = liveCount vmc + 1 ↔ g ∉ vmc.Counters) := by
  have hl : (CreateNewCounter vmc g nonce).1.Counters.lookup g =
      some { CounterID := g, Value := 0 } := by
    rw [lookup_create, if_pos rfl]
  have hin : g ∈ vmc.Counters → liveCount (CreateNewCounter vmc g nonce).1 = liveCount vmc := by
    intro hmem
    unfold liveCount
    rw [keys_create, Finset.card_insert_of_mem (Finmap.mem_keys.2 hmem)]
  have hout : g ∉ vmc.Counters →
      liveCount (CreateNewCounter vmc g nonce).1 = liveCount vmc + 1 := by
    intro hmem
    unfold liveCount
    rw [keys_create, Finset.card_insert_of_not_mem (fun h => hmem (Finmap.mem_keys.1 h))]
  refine ⟨fun c hc => ⟨rfl, hl, hin (Finmap.mem_of_lookup_eq_some hc)⟩, hout, ?_, hout⟩
  intro h
  by_contra hmem
  have := hin hmem
  omega

/-- C20 on a create that draws the live identifier 7 (at value 2, beside
counter 8), and on one that draws the fresh identifier 9. -/
theorem C20_collision_not_checked_witness :
    (run emptyService [.create 8 0, .create 7 0, .increment 7 0, .increment 7 0]).Counters.lookup 7
      = some { CounterID := 7, Value := 2 } ∧
    ((CreateNewCounter (run emptyService [.create 8 0, .create 7 0, .increment 7 0,
        .increment 7 0]) 7 5).2 = { CounterID := 7, Value := 0, Nonce := 5 } ∧
      (CreateNewCounter (run emptyService [.create 8 0, .create 7 0, .increment 7 0,
        .increment 7 0]) 7 5).1.Counters.lookup 7 = some { CounterID := 7, Value := 0 } ∧
      liveCount (CreateNewCounter (run emptyService [.create 8 0, .create 7 0, .increment 7 0,
        .increment 7 0]) 7 5).1 =
        liveCount (run emptyService [.create 8 0, .create 7 0, .increment 7 0,
          .increment 7 0])) ∧
    9 ∉ (run emptyService [.create 8 0, .create 7 0, .increment 7 0, .increment 7 0]).Counters ∧
    liveCount (CreateNewCounter (run emptyService [.create 8 0, .create 7 0, .increment 7 0,
        .increment 7 0]) 9 5).1 =
      liveCount (run emptyService [.create 8 0, .create 7 0, .increment 7 0,
        .increment 7 0]) + 1 :=
  ⟨by decide,
    (C20_collision_not_checked (run emptyService [.create 8 0, .create 7 0, .increment 7 0,
      .increment 7 0]) 7 5).1 { CounterID := 7, Value := 2 } (by decide),
    by decide,
    (C20_collision_not_checked (run emptyService [.create 8 0, .create 7 0, .increment 7 0,
      .increment 7 0]) 9 5).2.1 (by decide)⟩

end Service

end MonotonicCounter
